import Mathlib

/-!
Verification development for the FH-Simulator signal-synthesis engine.

The TypeScript sources (src/client/lib/pcg.ts, src/client/pages/NotFound.tsx,
src/client/pages/Index.tsx) are shallowly embedded below.  JavaScript numbers
are modelled as real numbers; JavaScript arrays as `List ℝ` or as
length-plus-function records (`FArr`); the ambient `Math.random` source as an
explicit stream `ℕ → ℝ` with a cursor threaded through every function that
draws from it.  Fallible operations (the `new Array(n)` allocation, the
unbounded Poisson sampling loops) are modelled with `Option` and explicit
fuel.  `x / 0 = 0` follows Lean's convention where the source would produce
NaN; no claim below depends on such a degenerate branch.
-/

open scoped BigOperators

noncomputable section

/-- A stream of ambient random draws, modelling successive results of
JavaScript `Math.random()` (values in `[0,1)`). -/
def RStream : Type := ℕ → ℝ

open Classical in
/-- `while (u === 0) u = rng();` — consume draws from cursor `c` until a
nonzero one appears; returns the drawn value and the next cursor.  If the
stream is zero forever the source diverges; we return a junk value there. -/
def drawNZ (o : RStream) (c : ℕ) : ℝ × ℕ :=
  if h : ∃ j, c ≤ j ∧ o j ≠ 0 then
    (o (Nat.find h), Nat.find h + 1)
  else (0, c + 1)

/-- Box–Muller `gaussian` (identical in pcg.ts and both NotFound.tsx copies):
two rejection-sampled uniforms, `sqrt(-2 ln u) * cos(2π v)`. -/
def gaussianDraw (o : RStream) (c : ℕ) : ℝ × ℕ :=
  let u := drawNZ o c
  let v := drawNZ o u.2
  (Real.sqrt (-2 * Real.log u.1) * Real.cos (2 * Real.pi * v.1), v.2)

/-- A list of `n` successive gaussian draws (e.g. `fill(0).map(() => gaussian(rng))`). -/
def gaussList (o : RStream) : ℕ → ℕ → List ℝ × ℕ
  | 0, c => ([], c)
  | n + 1, c =>
    let g := gaussianDraw o c
    let rest := gaussList o n g.2
    (g.1 :: rest.1, rest.2)

/-- A list of `n` successive raw uniform draws. -/
def uniformList (o : RStream) : ℕ → ℕ → List ℝ × ℕ
  | 0, c => ([], c)
  | n + 1, c =>
    let rest := uniformList o n (c + 1)
    (o c :: rest.1, rest.2)

/-- JavaScript `Math.round` (half away from zero toward `+∞`). -/
def jsRound (x : ℝ) : ℤ := ⌊x + 1 / 2⌋

/-- `Math.max(...l.map(Math.abs), d)`: fold of absolute values with seed `d`. -/
def maxAbsD (l : List ℝ) (d : ℝ) : ℝ := l.foldl (fun m v => max m |v|) d

/-- `Math.max(...l, d)`: fold of values with seed `d`. -/
def maxD (l : List ℝ) (d : ℝ) : ℝ := l.foldl max d

/-- Mean square of a list, `arr.reduce((s,v) => s+v*v, 0) / Math.max(1, arr.length)`. -/
def meanSq (l : List ℝ) : ℝ := (l.map fun v => v ^ 2).sum / max 1 (l.length : ℝ)

namespace Pcg
/-! Embedding of `src/client/lib/pcg.ts`. -/

/-- One pass of the recursion `out[i] = a*out[i-1] + (1-a)*y[i]` with
`out[0] = 0` (the JS loop starts at `i = 1` over a zero-filled array). -/
def onePoleAux (a : ℝ) : List ℝ → ℝ → List ℝ
  | [], _ => []
  | xi :: rest, prev =>
    let yi := a * prev + (1 - a) * xi
    yi :: onePoleAux a rest yi

def onePoleL (a : ℝ) : List ℝ → List ℝ
  | [] => []
  | _ :: rest => 0 :: onePoleAux a rest 0

/-- One high-pass stage: `y - onePoleL a y`. -/
def onePoleH (a : ℝ) (y : List ℝ) : List ℝ :=
  List.zipWith (fun v l => v - l) y (onePoleL a y)

/-- `bandpassFilter(x, fs, low, high, order)`: `order/2` low-pass stages at the
clamped high cutoff, then `order/2` high-pass stages at the clamped low cutoff.
The JS loop `for (ord = 0; ord < order / 2; ord++)` runs `⌈order/2⌉` times. -/
def bandpassFilter (x : List ℝ) (fs low high : ℝ) (order : ℕ) : List ℝ :=
  let lowClamped := min low (fs / 2 - 1)
  let highClamped := min high (fs / 2 - 1)
  let aL := Real.exp (-2 * Real.pi * highClamped / fs)
  let aH := Real.exp (-2 * Real.pi * lowClamped / fs)
  let stages := (order + 1) / 2
  (onePoleH aH)^[stages] ((onePoleL aL)^[stages] x)

/-- `lowpassFilter(x, fs, cutoff, order)`: `order` cascaded one-pole stages at
the clamped cutoff.  There is no `cutoff ≤ 0` passthrough branch. -/
def lowpassFilter (x : List ℝ) (fs cutoff : ℝ) (order : ℕ) : List ℝ :=
  let cutoffClamped := min cutoff (fs / 2 - 1)
  let a := Real.exp (-2 * Real.pi * cutoffClamped / fs)
  (onePoleL a)^[order] x

/-- Two-pole `resonator` recursion `y[i] = b0*x[i] + a1*y[i-1] + a2*y[i-2]`. -/
def resonAux (a1 a2 b0 : ℝ) : List ℝ → ℝ → ℝ → List ℝ
  | [], _, _ => []
  | xi :: rest, p1, p2 =>
    let yi := b0 * xi + a1 * p1 + a2 * p2
    yi :: resonAux a1 a2 b0 rest yi p1

def resonator (x : List ℝ) (fs f0 zeta : ℝ) : List ℝ :=
  let w0 := 2 * Real.pi * f0 / fs
  let a1 := -2 * Real.exp (-zeta * w0) * Real.cos w0
  let a2 := Real.exp (-2 * zeta * w0)
  let b0 := 1 - Real.exp (-zeta * w0)
  resonAux a1 a2 b0 x 0 0

/-- `addNoiseSNR(x, snrDb, fs, rng)`: power-matched additive gaussian noise,
low-passed at 100 Hz and normalised by `sqrt(meanSq + 1e-8) + 1e-8`. -/
def addNoiseSNR (x : List ℝ) (snrDb fs : ℝ) (o : RStream) (c : ℕ) :
    List ℝ × ℕ :=
  let pSig := meanSq x
  let snrLin := Real.rpow 10 (snrDb / 10)
  let pNoise := pSig / snrLin
  let noise := gaussList o x.length c
  let filtered := lowpassFilter noise.1 fs 100 4
  let noisePower := Real.sqrt (meanSq filtered + 1e-8)
  let filtered2 := filtered.map fun v => v / (noisePower + 1e-8)
  (List.zipWith (fun xi fi => xi + fi * Real.sqrt pNoise) x filtered2, noise.2)

end Pcg

/-- One mulberry32 state update: `s = (s + 0x6D2B79F5) | 0` on the uint32
bit pattern. -/
def mbNext (s : ℕ) : ℕ := (s + 0x6D2B79F5) % 2 ^ 32

/-- `Math.imul`: 32-bit wrapping multiply on bit patterns. -/
def jsImul (a b : ℕ) : ℕ := a * b % 2 ^ 32

/-- The mulberry32 output mix applied to a (fresh) state. -/
def mbOut (s : ℕ) : ℕ :=
  let t1 := jsImul (s ^^^ (s >>> 15)) (s ||| 1)
  let t2 := ((t1 + jsImul (t1 ^^^ (t1 >>> 7)) (t1 ||| 61)) % 2 ^ 32) ^^^ t1
  t2 ^^^ (t2 >>> 14)

/-- `seededRandom(seed)` of pcg.ts as a stream: the `n`-th call advances the
state once and mixes it. -/
def seededRandomStream (seed : ℕ) : RStream :=
  fun n => (mbOut (mbNext^[n + 1] (seed % 2 ^ 32)) : ℝ) / 2 ^ 32

/-- `rngFactory(seed)` of NotFound.tsx (fPCG section): zero seeds fall back
to `123456789`. -/
def rngFactoryStream (seed : ℕ) : RStream :=
  fun n =>
    let s0 := if seed % 2 ^ 32 = 0 then 123456789 else seed % 2 ^ 32
    (mbOut (mbNext^[n + 1] s0) : ℝ) / 2 ^ 32

/-- `rng(seed)` of the lung section: zero seeds fall back to `1`. -/
def lungRngStream (seed : ℕ) : RStream :=
  fun n =>
    let s0 := if seed % 2 ^ 32 = 0 then 1 else seed % 2 ^ 32
    (mbOut (mbNext^[n + 1] s0) : ℝ) / 2 ^ 32

namespace Pcg

/-- Sample loop of `envelopedBurst`: per sample, one gaussian phase jitter and
one gaussian additive noise draw. -/
def envBurstLoop (fs center width amp f0 : ℝ) (o : RStream) :
    ℕ → ℕ → ℕ → List ℝ × ℕ
  | 0, _, c => ([], c)
  | k + 1, i, c =>
    let g1 := gaussianDraw o c
    let g2 := gaussianDraw o g1.2
    let t := (i : ℝ) / fs
    let env := Real.exp (-0.5 * ((t - center) / width) ^ 2)
    let v := amp * env * (Real.sin (2 * Real.pi * f0 * t + g1.1 * 0.2) + g2.1 * 0.3)
    let rest := envBurstLoop fs center width amp f0 o k (i + 1) g2.2
    (v :: rest.1, rest.2)

/-- `envelopedBurst(n, fs, center, width, amp, rng)`: gaussian-envelope burst
with a random carrier `f0 = 60 + 40·gaussian`. -/
def envelopedBurst (n : ℕ) (fs center width amp : ℝ) (o : RStream) (c : ℕ) :
    List ℝ × ℕ :=
  let g := gaussianDraw o c
  let f0 := 60 + 40 * g.1
  envBurstLoop fs center width amp f0 o n 0 g.2

/-- `valveEvent`: main burst plus delayed attenuated sub-burst. -/
def valveEvent (n : ℕ) (fs center width ampMain ampSub delayMs : ℝ)
    (o : RStream) (c : ℕ) : List ℝ × ℕ :=
  let delay := delayMs / 1000
  let main := envelopedBurst n fs center width ampMain o c
  let sub := envelopedBurst n fs (center + delay) width ampSub o main.2
  (List.zipWith (· + ·) main.1 sub.1, sub.2)

/-- The PCG single-beat parameter record.  The source's `t_s1_ratio` and
`t_s2_ratio` fields are named `t_s1_frac` / `t_s2_frac` here. -/
structure PCGParams where
  width_s1 : ℝ
  width_s2 : ℝ
  amp_main : ℝ
  amp_sub : ℝ
  t_s1_frac : ℝ
  t_s2_frac : ℝ
  f0 : ℝ
  zeta : ℝ

inductive Abnormal where
  | systolic_murmur
  | diastolic_murmur
  | s2_split
  | s3

/-- `addSystolicMurmur`: decaying-envelope gaussian noise on `[tS1, tS2)`,
band-passed 100–400 Hz.  One gaussian is drawn per executed loop iteration. -/
def addSystolicMurmur (n : ℕ) (fs tS1 tS2 : ℝ) (o : RStream) (c : ℕ) :
    List ℝ × ℕ :=
  let startIdx : ℤ := ⌊tS1 * fs⌋
  let endIdx : ℤ := ⌊tS2 * fs⌋
  if startIdx < endIdx then
    let len := endIdx - startIdx
    let k := (min len ((n : ℤ) - startIdx)).toNat
    let gs := gaussList o k c
    let murmur := (List.range n).map fun (j : ℕ) =>
      if startIdx ≤ (j : ℤ) ∧ (j : ℤ) < startIdx + k then
        let i := ((j : ℤ) - startIdx).toNat
        0.25 * Real.exp (-3 * (((i : ℝ) / fs) / ((len : ℝ) / fs))) * gs.1.getD i 0
      else 0
    (bandpassFilter murmur fs 100 400 4, gs.2)
  else (bandpassFilter ((List.range n).map fun (_ : ℕ) => 0) fs 100 400 4, c)

/-- `addDiastolicMurmur`: sine-envelope gaussian noise on `[tS2, nextTS1)`,
band-passed 80–300 Hz. -/
def addDiastolicMurmur (n : ℕ) (fs tS2 nextTS1 : ℝ) (o : RStream) (c : ℕ) :
    List ℝ × ℕ :=
  let startIdx : ℤ := ⌊tS2 * fs⌋
  let endIdx : ℤ := min (n : ℤ) ⌊nextTS1 * fs⌋
  if startIdx < endIdx then
    let len := endIdx - startIdx
    let k := (min len ((n : ℤ) - startIdx)).toNat
    let gs := gaussList o k c
    let murmur := (List.range n).map fun (j : ℕ) =>
      if startIdx ≤ (j : ℤ) ∧ (j : ℤ) < startIdx + k then
        let i := ((j : ℤ) - startIdx).toNat
        0.2 * Real.sin (Real.pi * ((i : ℝ) / fs) / ((len : ℝ) / fs)) * gs.1.getD i 0
      else 0
    (bandpassFilter murmur fs 80 300 4, gs.2)
  else (bandpassFilter ((List.range n).map fun (_ : ℕ) => 0) fs 80 300 4, c)

/-- `addS2Split`: copy of the original S2 plus `0.6×` a delayed valve event. -/
def addS2Split (n : ℕ) (fs tS2 : ℝ) (s2Original : List ℝ) (splitMs : ℝ)
    (o : RStream) (c : ℕ) : List ℝ × ℕ :=
  let s2Split := valveEvent n fs (tS2 + splitMs / 1000) 0.03 0.4 0.2 18 o c
  (List.zipWith (fun v w => v + 0.6 * w) s2Original s2Split.1, s2Split.2)

/-- `addS3Sound`: a short enveloped burst placed `0.15 s` after S2,
band-passed 20–150 Hz. -/
def addS3Sound (n : ℕ) (fs tS2 : ℝ) (o : RStream) (c : ℕ) : List ℝ × ℕ :=
  let s3Time := tS2 + 0.15
  let idx : ℤ := ⌊s3Time * fs⌋
  if idx < (n : ℤ) then
    let m := (min 200 ((n : ℤ) - idx)).toNat
    let burst := envelopedBurst m fs 0.05 0.04 0.3 o c
    let s3 := (List.range n).map fun (j : ℕ) =>
      if idx ≤ (j : ℤ) ∧ (j : ℤ) < idx + m then burst.1.getD ((j : ℤ) - idx).toNat 0
      else 0
    (bandpassFilter s3 fs 20 150 4, burst.2)
  else (bandpassFilter ((List.range n).map fun (_ : ℕ) => 0) fs 20 150 4, c)

structure SingleBeatOut where
  beat : List ℝ
  s1Time : ℝ
  s2Time : ℝ
  cur : ℕ

/-- `simulateSingleBeat`: two valve events, optional abnormal injection,
chest resonance and a single 150 Hz low-pass. -/
def simulateSingleBeat (fs duration : ℝ) (params : PCGParams)
    (abnormal : Option Abnormal) (o : RStream) (c : ℕ) : SingleBeatOut :=
  let n := (⌊duration * fs⌋).toNat
  let tS1 := params.t_s1_frac * duration
  let tS2 := params.t_s2_frac * duration
  let s1 := valveEvent n fs tS1 params.width_s1 (params.amp_main * 2)
    (params.amp_sub * 2) 12 o c
  let s2 := valveEvent n fs tS2 params.width_s2 (params.amp_main * 1.6)
    (params.amp_sub * 1.6) 18 o s1.2
  let beat0 := List.zipWith (· + ·) s1.1 s2.1
  let withAbn : List ℝ × ℕ :=
    match abnormal with
    | some .systolic_murmur =>
      let m := addSystolicMurmur n fs tS1 tS2 o s2.2
      (List.zipWith (· + ·) beat0 m.1, m.2)
    | some .diastolic_murmur =>
      let nextTS1 := duration + params.t_s1_frac * duration
      let m := addDiastolicMurmur n fs tS2 nextTS1 o s2.2
      (List.zipWith (· + ·) beat0 m.1, m.2)
    | some .s2_split =>
      let sp := addS2Split n fs tS2 s2.1 60 o s2.2
      (List.zipWith (· + ·) s1.1 sp.1, sp.2)
    | some .s3 =>
      let m := addS3Sound n fs tS2 o s2.2
      (List.zipWith (· + ·) beat0 m.1, m.2)
    | none => (beat0, s2.2)
  let beat1 := resonator withAbn.1 fs (params.f0 * 0.8) (params.zeta * 0.6)
  let beat2 := lowpassFilter beat1 fs 150 4
  ⟨beat2, tS1, tS2, withAbn.2⟩

structure MBState where
  beats : List (List ℝ)
  s1 : List ℝ
  s2 : List ℝ
  cur : ℕ

/-- The per-beat loop of `simulateMultibeat`: synthesise, add SNR noise,
amplify ×100 if the peak is below `1e-6`, normalise to `0.95`. -/
def multibeatLoop (fs bls : ℝ) (params : PCGParams) (abn : Option Abnormal)
    (snr : ℝ) (o : RStream) : ℕ → ℕ → MBState → MBState
  | 0, _, st => st
  | k + 1, b, st =>
    let sb := simulateSingleBeat fs bls params abn o st.cur
    let processed := addNoiseSNR sb.beat snr fs o sb.cur
    let p1 := if maxAbsD processed.1 1e-8 < 1e-6 then processed.1.map (· * 100)
              else processed.1
    let fp := maxAbsD p1 1e-8
    let p2 := p1.map fun v => 0.95 * v / fp
    multibeatLoop fs bls params abn snr o k (b + 1)
      ⟨st.beats ++ [p2], st.s1 ++ [sb.s1Time + b * bls],
        st.s2 ++ [sb.s2Time + b * bls], processed.2⟩

structure MultibeatOut where
  pcg : List ℝ
  s1Times : List ℝ
  s2Times : List ℝ
  cur : ℕ

/-- `simulateMultibeat`: concatenate the processed beats; a near-zero
concatenated result is amplified ×10 (with only a logged warning). -/
def simulateMultibeat (numBeats : ℕ) (fs bls : ℝ) (params : PCGParams)
    (abn : Option Abnormal) (snr : ℝ) (o : RStream) (c : ℕ) : MultibeatOut :=
  let st := multibeatLoop fs bls params abn snr o numBeats 0 ⟨[], [], [], c⟩
  let pcg := st.beats.flatten
  let pcg2 := if pcg.length = 0 ∨ maxAbsD pcg 0 < 0.01 then pcg.map (· * 10)
              else pcg
  ⟨pcg2, st.s1, st.s2, st.cur⟩

def defaultParams : PCGParams :=
  ⟨0.045, 0.035, 0.8, 0.4, 0.12, 0.45, 120, 0.4⟩

/-- `simulateHeartDataset`: always seeds its own mulberry32 generator with
`2025`; the ambient random stream is never consulted. -/
def simulateHeartDataset (cycles : ℕ) (fs : ℝ) (abn : Option Abnormal)
    (_ambient : RStream) : List ℝ × List ℝ :=
  let r := simulateMultibeat cycles fs 1.2 defaultParams abn 6
    (seededRandomStream 2025) 0
  (((List.range r.pcg.length).map fun (i : ℕ) => (i : ℝ) / fs), r.pcg)

/-- `resampleToLength` of pcg.ts: exact length match returns a copy,
non-positive targets return `[]`, otherwise linear interpolation. -/
def resampleToLength (_t y : List ℝ) (targetLength : ℤ) : List ℝ :=
  if (y.length : ℤ) = targetLength then y
  else if targetLength ≤ 0 then []
  else
    (List.range targetLength.toNat).map fun (i : ℕ) =>
      let n : ℝ := (y.length : ℝ) - 1
      let idx := (i : ℝ) * n / max 1 ((targetLength : ℝ) - 1)
      let i0 := ⌊idx⌋
      let i1 := min ((y.length : ℤ) - 1) (i0 + 1)
      let w := idx - (i0 : ℝ)
      y.getD i0.toNat 0 * (1 - w) + y.getD i1.toNat 0 * w

end Pcg

namespace Fpcg
/-! Embedding of the fPCG section of `src/client/pages/NotFound.tsx`. -/

/-- `linspace(start, end, n)` value at index `i`. -/
def linspaceVal (s e : ℝ) (n i : ℕ) : ℝ := s + i * ((e - s) / max 1 ((n : ℝ) - 1))

/-- `sinc(x) = sin(πx)/(πx)`, with `sinc 0 = 1`. -/
def sinc (x : ℝ) : ℝ := if x = 0 then 1 else Real.sin (Real.pi * x) / (Real.pi * x)

/-- A JS array modelled by its length and a total value function
(indices `≥ len` are irrelevant and read as whatever the function returns). -/
structure FArr where
  len : ℕ
  val : ℕ → ℝ

def zerosA (n : ℕ) : FArr := ⟨n, fun _ => 0⟩

/-- `for (i = 0; i < src.len && start + i < dst.len; i++) dst[start+i] += src[i]`. -/
def addIntoZ (dst : FArr) (start : ℤ) (src : FArr) : FArr :=
  ⟨dst.len, fun j =>
    dst.val j +
      if start ≤ (j : ℤ) ∧ (j : ℤ) < start + src.len ∧ j < dst.len then
        src.val ((j : ℤ) - start).toNat
      else 0⟩

def FArr.toList (a : FArr) : List ℝ := (List.range a.len).map a.val

/-- `generate_heart_sound(center_freq, duration, fs, amplitude).signal`:
an `amplitude·sinc(2f·t)` kernel on `linspace(-d/2, d/2, n)`. -/
def generate_heart_sound (cf dur fs amp : ℝ) : FArr :=
  let n := (max 1 ⌊fs * dur⌋).toNat
  ⟨n, fun i => amp * sinc (2 * cf * linspaceVal (-(dur / 2)) (dur / 2) n i)⟩

/-- `onepole_lowpass` (NotFound.tsx): passthrough copy for `fc ≤ 0`. -/
def onepole_lowpass (x : List ℝ) (fc fs : ℝ) : List ℝ :=
  if fc ≤ 0 then x else Pcg.onePoleL (Real.exp (-2 * Real.pi * fc / fs)) x

/-- `onepole_highpass` (NotFound.tsx): passthrough copy for `fc ≤ 0`. -/
def onepole_highpass (x : List ℝ) (fc fs : ℝ) : List ℝ :=
  if fc ≤ 0 then x
  else List.zipWith (fun v l => v - l) x (onepole_lowpass x fc fs)

/-- `simple_bandpass`: skip the low-pass stage at/above Nyquist, skip the
high-pass stage for non-positive low cutoff. -/
def simple_bandpass (x : List ℝ) (f_lo f_hi fs : ℝ) : List ℝ :=
  let y := if f_hi ≥ fs / 2 then x else onepole_lowpass x f_hi fs
  if f_lo ≤ 0 then y else onepole_highpass y f_lo fs

/-- `expo_conv_kernel(r, c, fs, beta, A)`: delayed exponential decay kernel. -/
def expo_conv_kernel (r c fs beta A : ℝ) : FArr :=
  let t0 := r / c
  let n0 := jsRound (t0 * fs)
  let tau := 1 / beta
  let nmax := jsRound ((n0 : ℝ) + 5 * tau * fs)
  ⟨(nmax + 1).toNat, fun i =>
    if n0 ≤ (i : ℤ) then A * Real.exp (-((i : ℝ) - (n0 : ℝ)) * (beta / fs)) else 0⟩

/-- Direct discrete `convolve(a, b)`. -/
def convolve (a b : FArr) : FArr :=
  ⟨a.len + b.len - 1, fun k =>
    ∑ i ∈ Finset.range a.len,
      a.val i * (if i ≤ k ∧ k - i < b.len then b.val (k - i) else 0)⟩

/-- Truncation `slice(0, L)`. -/
def FArr.take (a : FArr) (L : ℕ) : FArr := ⟨min L a.len, a.val⟩

/-- The `rms` helper of the fPCG section (NotFound.tsx line 290, with the
square root).  NB: the module re-declares `rms` without the square root in its
lung section; each section is modelled with its own nearest declaration, and
no theorem below depends on which of the two a given call resolves to. -/
def rms (l : List ℝ) : ℝ := Real.sqrt ((l.map fun v => v ^ 2).sum / max 1 (l.length : ℝ))

/-- The Poisson-arrival `while (true)` loop: draw exponential gaps
`-ln(1-u)/λ` until the running time reaches `total`; `λ ≤ 0` gives an
infinite gap and an immediate break.  `fuel` bounds the iterations of the
source's unbounded loop; `none` models non-termination within the fuel. -/
def poissonArrivals (o : RStream) (lam total : ℝ) :
    ℕ → ℝ → ℕ → Option (List ℝ × ℕ)
  | 0, _, _ => none
  | fuel + 1, t, c =>
    if 0 < lam then
      let gap := -Real.log (1 - o c) / lam
      let t' := t + gap
      if total ≤ t' then some ([], c + 1)
      else
        match poissonArrivals o lam total fuel t' (c + 1) with
        | none => none
        | some (l, c') => some (t' :: l, c')
    else some ([], c)

structure MovementOpts where
  rate_per_min : ℝ
  duration_range : ℝ × ℝ
  band : ℝ × ℝ
  intensity : ℝ
  thump_prob : ℝ

/-- Raised-cosine fade window weight `0.5 - 0.5 cos(πi/(Lr-1))`. -/
def fadeW (lr : ℕ) (i : ℕ) : ℝ :=
  0.5 - 0.5 * Real.cos (Real.pi * i / ((lr : ℝ) - 1))

/-- Body of one movement event: gaussian segment, band-pass, raised-cosine
fade at both ends, optional thump, intensity scaling.  Returns the scaled
segment together with the advanced cursor. -/
def movementSegment (fs : ℝ) (opts : MovementOpts) (segLen : ℕ)
    (o : RStream) (c : ℕ) : List ℝ × ℕ :=
  let gs := gaussList o segLen c
  let y := simple_bandpass gs.1 opts.band.1 opts.band.2 fs
  let lr := (max 2 ⌊0.08 * (segLen : ℝ)⌋).toNat
  let y1 := y.mapIdx fun j v =>
    v * (if j < lr then fadeW lr j else 1) *
      (if segLen - 1 - j < lr ∧ j < segLen then fadeW lr (segLen - 1 - j) else 1)
  let uT := o gs.2
  let c1 := gs.2 + 1
  let withThump :=
    if uT < opts.thump_prob then
      let thCenter := (⌊(0.1 + 0.8 * o c1) * (segLen : ℝ)⌋).toNat
      let thDur := (max 8 ⌊0.015 * fs⌋).toNat
      (y1.mapIdx fun j v =>
        v + if thCenter ≤ j ∧ j < thCenter + thDur ∧ j < segLen then
              Real.exp (-4 * ((j : ℝ) - thCenter) / max 1 (thDur : ℝ))
            else 0,
        c1 + 1)
    else (y1, c1)
  (withThump.1.map fun v => v * (0.25 * opts.intensity), withThump.2)

/-- State threaded through the movement event loop. -/
structure MoveState where
  movement : FArr
  events : List (ℤ × ℤ)
  cur : ℕ

/-- One iteration of the `for (const st of starts)` loop of
`generate_movement_artifacts`. -/
def movementStep (total_len : ℕ) (fs : ℝ) (opts : MovementOpts)
    (o : RStream) (st : MoveState) (t : ℝ) : MoveState :=
  let dur := opts.duration_range.1 + o st.cur * (opts.duration_range.2 - opts.duration_range.1)
  let c1 := st.cur + 1
  let sIdx : ℤ := ⌊t * fs⌋
  let eIdx : ℤ := min (total_len : ℤ) (sIdx + max 1 ⌊dur * fs⌋)
  if eIdx - sIdx < 4 then { st with cur := c1 }
  else
    let segLen := (eIdx - sIdx).toNat
    let seg := movementSegment fs opts segLen o c1
    { movement := addIntoZ st.movement sIdx ⟨segLen, fun j => seg.1.getD j 0⟩
      events := st.events ++ [(sIdx, eIdx)]
      cur := seg.2 }

/-- `generate_movement_artifacts` inner run (the function body after the
random source is chosen); `fuel` bounds the Poisson loop. -/
def movementRun (fuel : ℕ) (total_len : ℕ) (fs : ℝ) (opts : MovementOpts)
    (o : RStream) (c : ℕ) : Option (FArr × List (ℤ × ℤ) × ℕ) :=
  let lam := opts.rate_per_min / 60
  match poissonArrivals o lam ((total_len : ℝ) / fs) fuel 0 c with
  | none => none
  | some (starts, c1) =>
    let res := starts.foldl (movementStep total_len fs opts o)
      ⟨zerosA total_len, [], c1⟩
    some (res.movement, res.events, res.cur)

structure UcOpts where
  rate_per_10min : ℝ
  duration_range : ℝ × ℝ
  rise_fall_frac : ℝ × ℝ
  attenuation : ℝ
  noise_band : ℝ × ℝ
  noise_intensity : ℝ

structure UcEvent where
  start : ℤ
  stop : ℤ
  peak : ℤ

/-- The per-event raised-cosine rise / plateau / fall envelope segment. -/
def ucEnvSeg (lr lp lf : ℕ) (i : ℕ) : ℝ :=
  if i < lr then 0.5 - 0.5 * Real.cos (Real.pi * i / lr)
  else if i < lr + lp then 1
  else if i < lr + lp + lf then 0.5 + 0.5 * Real.cos (Real.pi * (i - lr - lp) / lf)
  else 0

structure UcState where
  env : FArr
  events : List UcEvent
  cur : ℕ

/-- One iteration of the UC event loop (`uc_env[i] = max(uc_env[i], env_seg[j])`). -/
def ucStep (total_len : ℕ) (fs : ℝ) (opts : UcOpts) (o : RStream)
    (st : UcState) (t : ℝ) : UcState :=
  let dur := opts.duration_range.1 + o st.cur * (opts.duration_range.2 - opts.duration_range.1)
  let c1 := st.cur + 1
  let sIdx : ℤ := ⌊t * fs⌋
  let eIdx : ℤ := min (total_len : ℤ) (sIdx + max 1 ⌊dur * fs⌋)
  let L := eIdx - sIdx
  if L < 8 then { st with cur := c1 }
  else
    let lr := (max 2 ⌊opts.rise_fall_frac.1 * (L : ℝ)⌋).toNat
    let lf := (max 2 ⌊opts.rise_fall_frac.2 * (L : ℝ)⌋).toNat
    let lp := (max 0 (L - lr - lf)).toNat
    let env' : FArr := ⟨st.env.len, fun j =>
      if sIdx ≤ (j : ℤ) ∧ (j : ℤ) < eIdx then
        max (st.env.val j) (ucEnvSeg lr lp lf ((j : ℤ) - sIdx).toNat)
      else st.env.val j⟩
    { env := env'
      events := st.events ++
        [⟨sIdx, eIdx, sIdx + lr + ⌊(max 0 ((lp : ℝ) - 1)) / 2⌋⟩]
      cur := c1 }

/-- `generate_uc_envelope` inner run: envelope and events, then the
band-limited low-frequency noise multiplied by the envelope. -/
def ucRun (fuel : ℕ) (total_len : ℕ) (fs : ℝ) (opts : UcOpts)
    (o : RStream) (c : ℕ) : Option (FArr × FArr × List UcEvent × ℕ) :=
  let lam := opts.rate_per_10min / 600
  match poissonArrivals o lam ((total_len : ℝ) / fs) fuel 0 c with
  | none => none
  | some (starts, c1) =>
    let res := starts.foldl (ucStep total_len fs opts o) ⟨zerosA total_len, [], c1⟩
    let gs := gaussList o total_len res.cur
    let base := simple_bandpass gs.1 opts.noise_band.1 opts.noise_band.2 fs
    let base2 := onepole_lowpass base 2 fs
    let baseRms := rms base2
    let base3 := if 0 < baseRms then base2.map (fun v => v / baseRms) else base2
    let ucNoise : FArr := ⟨total_len, fun i =>
      base3.getD i 0 * (opts.noise_intensity * res.env.val i)⟩
    some (res.env, ucNoise, res.events, gs.2)

/-- The options record of `simulateFpcgDataset` (defaults below).  The unused
`num_samples` field is omitted: the source only ever builds the first sample. -/
structure SimOptions where
  cycles_per_sample : ℕ
  fs : ℝ
  fhr : ℝ
  mhr : ℝ
  snr_db : ℝ
  r1 : ℝ
  c1 : ℝ
  beta1 : ℝ
  A1 : ℝ
  r2 : ℝ
  c2 : ℝ
  beta2 : ℝ
  A2 : ℝ
  movement_enabled : Bool
  movement_intensity : ℝ
  movement_rate_per_min : ℝ
  movement_duration_range : ℝ × ℝ
  movement_band : ℝ × ℝ
  movement_thump_prob : ℝ
  movement_seed : Option ℕ
  uc_enabled : Bool
  uc_rate_per_10min : ℝ
  uc_duration_range : ℝ × ℝ
  uc_rise_fall_frac : ℝ × ℝ
  uc_attenuation : ℝ
  uc_noise_band : ℝ × ℝ
  uc_noise_intensity : ℝ
  uc_seed : Option ℕ
  rr_std_frac : ℝ

def defaultSimOptions : SimOptions where
  cycles_per_sample := 10
  fs := 1000
  fhr := 140
  mhr := 80
  snr_db := 10
  r1 := 0.01
  c1 := 1500
  beta1 := 100
  A1 := 1
  r2 := 0.03
  c2 := 1540
  beta2 := 300
  A2 := 0.8
  movement_enabled := true
  movement_intensity := 1.2
  movement_rate_per_min := 8
  movement_duration_range := (0.12, 0.45)
  movement_band := (15, 200)
  movement_thump_prob := 0.35
  movement_seed := some 2025
  uc_enabled := true
  uc_rate_per_10min := 3
  uc_duration_range := (12, 30)
  uc_rise_fall_frac := (0.35, 0.35)
  uc_attenuation := 0.4
  uc_noise_band := (0.5, 20)
  uc_noise_intensity := 0.7
  uc_seed := some 1234
  rr_std_frac := 0.05

/-- Kernel-placement state threaded through the fetal/maternal beat loops. -/
structure PlaceState where
  sig : FArr
  idx : ℤ
  cur : ℕ

/-- One iteration of the fetal S1/S2 placement loop (seven gaussian draws per
beat, in source order). -/
def fetalBeatStep (fs ssidSec : ℝ) (o : RStream) (st : PlaceState) (rr : ℝ) :
    PlaceState :=
  let beatLen := ⌊rr * fs⌋
  let g1 := gaussianDraw o st.cur
  let g2 := gaussianDraw o g1.2
  let g3 := gaussianDraw o g2.2
  let g4 := gaussianDraw o g3.2
  let g5 := gaussianDraw o g4.2
  let g6 := gaussianDraw o g5.2
  let g7 := gaussianDraw o g6.2
  let ampS1 := 0.8 + 0.08 * g1.1
  let ampS2 := 0.5 + 0.08 * g2.1
  let freqS1 := 50 + 2 * g3.1
  let freqS2 := 60 + 2 * g4.1
  let durS1 := max 0.02 (0.08 + 0.01 * g5.1)
  let durS2 := max 0.02 (0.05 + 0.01 * g6.1)
  let ssid := max 0.02 (ssidSec + 0.01 * g7.1)
  let s1 := generate_heart_sound freqS1 durS1 fs ampS1
  let s2 := generate_heart_sound freqS2 durS2 fs ampS2
  ⟨addIntoZ (addIntoZ st.sig st.idx s1) (st.idx + ⌊ssid * fs⌋) s2,
    st.idx + beatLen, g7.2⟩

/-- One iteration of the maternal S1/S2 placement loop. -/
def maternalBeatStep (fs msSec : ℝ) (o : RStream) (st : PlaceState) (rr : ℝ) :
    PlaceState :=
  let beatLen := ⌊rr * fs⌋
  let g1 := gaussianDraw o st.cur
  let g2 := gaussianDraw o g1.2
  let g3 := gaussianDraw o g2.2
  let g4 := gaussianDraw o g3.2
  let g5 := gaussianDraw o g4.2
  let g6 := gaussianDraw o g5.2
  let g7 := gaussianDraw o g6.2
  let ampMs1 := 0.03 + 0.02 * g1.1
  let ampMs2 := 0.02 + 0.02 * g2.1
  let freqMs1 := 15 + 2 * g3.1
  let freqMs2 := 20 + 2 * g4.1
  let durMs1 := max 0.02 (0.08 + 0.01 * g5.1)
  let durMs2 := max 0.02 (0.05 + 0.01 * g6.1)
  let mssid := max 0.01 (msSec + 0.005 * g7.1)
  let ms1 := generate_heart_sound freqMs1 durMs1 fs ampMs1
  let ms2 := generate_heart_sound freqMs2 durMs2 fs ampMs2
  let ms1Start := st.idx + ⌊0.3 * fs⌋
  let ms2Start := ms1Start + ⌊mssid * fs⌋
  ⟨addIntoZ (addIntoZ st.sig ms1Start ms1) ms2Start ms2,
    st.idx + beatLen, g7.2⟩

structure SimOutput where
  t : FArr
  y : FArr
  mv_events : List (ℤ × ℤ)
  uc_events : List UcEvent

/-- `simulateFpcgDataset`.  The main random source is `rngFactory(null)`,
i.e. the ambient `Math.random` stream `o`; only the movement/UC generators are
(by default) seeded.  `fuel` bounds their Poisson loops. -/
def simulateFpcgDataset (fuel : ℕ) (opts : SimOptions) (o : RStream) :
    Option SimOutput :=
  let meanRR := 60 / opts.fhr
  let tDraws := uniformList o opts.cycles_per_sample 0
  let T := tDraws.1.map fun u => meanRR + opts.rr_std_frac * meanRR * u
  let totalDuration := T.sum + 0.5
  let nS := (max 1 ⌊opts.fs * totalDuration⌋).toNat
  let t : FArr := ⟨nS, fun i => linspaceVal 0 totalDuration nS i⟩
  let ssidSec := (210 - 0.5 * opts.fhr) / 1000
  let fet := T.foldl (fetalBeatStep opts.fs ssidSec o) ⟨zerosA nS, 0, tDraws.2⟩
  let msSec := (0.2 * (60000 / opts.mhr) - 160) / 1000
  let tmDraws := uniformList o T.length fet.cur
  let Tm := tmDraws.1.map fun u => 60 / opts.mhr + opts.rr_std_frac * meanRR * u
  let mat := Tm.foldl (maternalBeatStep opts.fs msSec o) ⟨zerosA nS, 0, tmDraws.2⟩
  let h1 := expo_conv_kernel opts.r1 opts.c1 opts.fs opts.beta1 opts.A1
  let h2 := expo_conv_kernel opts.r2 opts.c2 opts.fs opts.beta2 opts.A2
  let hConv := convolve h1 h2
  let hNorm := ∑ i ∈ Finset.range hConv.len, hConv.val i
  let hTotal : FArr := ⟨hConv.len, fun i =>
    hConv.val i / (if hNorm = 0 then 1 else hNorm)⟩
  let prop := (convolve fet.sig hTotal).take fet.sig.len
  let ucOpts : UcOpts := ⟨opts.uc_rate_per_10min, opts.uc_duration_range,
    opts.uc_rise_fall_frac, opts.uc_attenuation, opts.uc_noise_band,
    opts.uc_noise_intensity⟩
  let ucRes : Option (FArr × FArr × List UcEvent × ℕ) :=
    if opts.uc_enabled then
      match opts.uc_seed with
      | some s => (ucRun fuel nS opts.fs ucOpts (rngFactoryStream s) 0).map
          fun r => (r.1, r.2.1, r.2.2.1, mat.cur)
      | none => ucRun fuel nS opts.fs ucOpts o mat.cur
    else some (zerosA nS, zerosA nS, [], mat.cur)
  match ucRes with
  | none => none
  | some (ucEnv, ucNoise, ucEvents, c1) =>
    let fEnv : FArr := ⟨nS, fun i =>
      prop.val i *
        (1 - (if opts.uc_enabled then opts.uc_attenuation * ucEnv.val i else 0))⟩
    let mvOpts : MovementOpts := ⟨opts.movement_rate_per_min,
      opts.movement_duration_range, opts.movement_band,
      opts.movement_intensity, opts.movement_thump_prob⟩
    let mvRes : Option (FArr × List (ℤ × ℤ) × ℕ) :=
      if opts.movement_enabled then
        match opts.movement_seed with
        | some s => (movementRun fuel nS opts.fs mvOpts (rngFactoryStream s) 0).map
            fun r => (r.1, r.2.1, c1)
        | none => movementRun fuel nS opts.fs mvOpts o c1
      else some (zerosA nS, [], c1)
    match mvRes with
    | none => none
    | some (movement, mvEvents, c2) =>
      let base : FArr := ⟨nS, fun i =>
        fEnv.val i + mat.sig.val i + ucNoise.val i + movement.val i⟩
      let signalR := rms base.toList
      let noiseR := signalR / Real.rpow 10 (opts.snr_db / 20)
      let gs := gaussList o nS c2
      let noiseNorm0 := rms gs.1
      let noiseNorm := if noiseNorm0 = 0 then 1 else noiseNorm0
      let y : FArr := ⟨nS, fun i =>
        base.val i + gs.1.getD i 0 / noiseNorm * noiseR⟩
      some ⟨t, y, mvEvents, ucEvents⟩

/-- `resampleToLength` of NotFound.tsx: exact length match copies; otherwise
interpolation over a `new Array(targetLen)` allocation, which in JavaScript
throws a `RangeError` for negative lengths (modelled as `none`). -/
def resampleToLength (xs ys : List ℝ) (targetLen : ℤ) : Option (List ℝ) :=
  if (ys.length : ℤ) = targetLen then some ys
  else if targetLen < 0 then none
  else some <| (List.range targetLen.toNat).map fun (i : ℕ) =>
    let tMin := xs.getD 0 0
    let tMax := xs.getD (xs.length - 1) 0
    let t := tMin + (tMax - tMin) * (i : ℝ) / max 1 ((targetLen : ℝ) - 1)
    let u := (t - tMin) / (tMax - tMin)
    let idx := u * ((ys.length : ℝ) - 1)
    let i0 := ⌊idx⌋
    let i1 := min ((ys.length : ℤ) - 1) (i0 + 1)
    let w := idx - (i0 : ℝ)
    ys.getD i0.toNat 0 * (1 - w) + ys.getD i1.toNat 0 * w

/-- The options `genFhsNormal` (Index.tsx) passes: cycles clamped upward,
movement and uterine contractions disabled, everything else defaulted. -/
def genFhsNormalOpts (cycles : ℝ) : SimOptions :=
  { defaultSimOptions with
    cycles_per_sample := (max 1 ⌊cycles⌋).toNat
    movement_enabled := false
    uc_enabled := false }

/-- `genFhsNormal(count, cycles)` of Index.tsx: simulate, then resample to
`count` points. -/
def genFhsNormal (fuel : ℕ) (count : ℤ) (cycles : ℝ) (o : RStream) :
    Option (List ℝ) :=
  match simulateFpcgDataset fuel (genFhsNormalOpts cycles) o with
  | none => none
  | some out => resampleToLength out.t.toList out.y.toList count

end Fpcg

namespace Lung
/-! Embedding of the lung-sound section of `src/client/pages/NotFound.tsx`. -/

/-- The lung section's own `rms` (NotFound.tsx line 678): sum of squares over
length, with NO square root — it returns mean square, not RMS. -/
def rms678 (l : List ℝ) : ℝ := meanSq l

/-- `raisedCosine(n)`: `0.5 * (1 - cos(πi/n))` for `i < n`. -/
def raisedCosine (n : ℕ) : List ℝ :=
  (List.range n).map fun (i : ℕ) => 0.5 * (1 - Real.cos (Real.pi * i / n))

/-- `onepoleLP` — identical body to the fPCG section's `onepole_lowpass`. -/
def onepoleLP (x : List ℝ) (fc fs : ℝ) : List ℝ := Fpcg.onepole_lowpass x fc fs

/-- `onepoleHP` — identical body to the fPCG section's `onepole_highpass`. -/
def onepoleHP (x : List ℝ) (fc fs : ℝ) : List ℝ := Fpcg.onepole_highpass x fc fs

/-- `bandpassSafe(x, fs, lo, hi, order)`: `⌈order/2⌉` low-pass stages at
`min(hi, 0.49 fs)` then as many high-pass stages at `lo`. -/
def bandpassSafe (x : List ℝ) (fs lo hi : ℝ) (order : ℕ) : List ℝ :=
  let hiClamped := min hi (0.49 * fs)
  let stages := (order + 1) / 2
  (fun y => onepoleHP y lo fs)^[stages] ((fun y => onepoleLP y hiClamped fs)^[stages] x)

/-- `lerpRand(rand, range)`: one uniform draw mapped into the range. -/
def lerpRand (u : ℝ) (range : ℝ × ℝ) : ℝ := range.1 + u * (range.2 - range.1)

/-- The fully-defaulted breath-cycle parameter record. -/
structure BreathParamsR where
  fs : ℝ
  insp_amp_range : ℝ × ℝ
  exp_amp_range : ℝ × ℝ
  insp_dur_range : ℝ × ℝ
  exp_dur_range : ℝ × ℝ
  mid_gap_range : ℝ × ℝ
  post_pause_range : ℝ × ℝ
  insp_band : ℝ × ℝ
  exp_band : ℝ × ℝ
  band_jitter_hz : ℝ × ℝ
  jitter_amp : ℝ
  crossfade_s : ℝ

/-- The defaults installed by `synthBreathRandomCycles`. -/
def defaultBreath (fs : ℝ) : BreathParamsR where
  fs := fs
  insp_amp_range := (0.9, 1.2)
  exp_amp_range := (0.8, 1.0)
  insp_dur_range := (1.6, 1.8)
  exp_dur_range := (1.8, 2.2)
  mid_gap_range := (0.2, 0.5)
  post_pause_range := (1.8, 2.2)
  insp_band := (120, 650)
  exp_band := (100, 500)
  band_jitter_hz := (-20, 40)
  jitter_amp := 0.1
  crossfade_s := 0.08

structure OneCycleOut where
  y : List ℝ
  t : List ℝ
  env : List ℝ
  cur : ℕ

/-- The envelope block of `oneCycleRandom`: half raised-cosine up and mirrored
down for inspiration and expiration, zero-padded to the segment lengths,
normalised by the segment maximum and scaled by the drawn amplitudes. -/
def breathEnv (inspAmp expAmp : ℝ) (nInsp nMid nExp nPause : ℕ) : List ℝ :=
  let N := nInsp + nMid + nExp + nPause
  let inspHalf := raisedCosine (max 1 (nInsp / 2))
  let inspEnv0 := inspHalf ++ inspHalf.reverse
  let inspEnv := inspEnv0 ++ List.replicate (nInsp - inspEnv0.length) 0
  let inspMax := maxD inspEnv 1e-9
  let expHalf := raisedCosine (max 1 (nExp / 2))
  let expEnv0 := expHalf ++ expHalf.reverse
  let expEnv := expEnv0 ++ List.replicate (nExp - expEnv0.length) 0
  let expStart := nInsp + nMid
  let expMax := maxD expEnv 1e-9
  (List.range N).map fun (i : ℕ) =>
    if i < nInsp then inspAmp * (inspEnv.getD i 0 / inspMax)
    else if expStart ≤ i ∧ i < expStart + nExp then
      expAmp * (expEnv.getD (i - expStart) 0 / expMax)
    else 0

/-- `oneCycleRandom`: ten uniform draws (amplitudes, durations, band jitter),
`N` gaussian samples, raised-cosine envelopes, band-passed noise cross-faded
at the inspiration/expiration boundary, peak-normalised to `0.95`. -/
def oneCycleRandom (p : BreathParamsR) (o : RStream) (c : ℕ) : OneCycleOut :=
  let inspAmp := lerpRand (o c) p.insp_amp_range
  let expAmp := lerpRand (o (c + 1)) p.exp_amp_range
  let inspDur := lerpRand (o (c + 2)) p.insp_dur_range
  let expDur := lerpRand (o (c + 3)) p.exp_dur_range
  let midGap := lerpRand (o (c + 4)) p.mid_gap_range
  let postPause := lerpRand (o (c + 5)) p.post_pause_range
  let bandInsp : ℝ × ℝ :=
    (max 10 (p.insp_band.1 + lerpRand (o (c + 6)) p.band_jitter_hz),
     min (p.fs / 2 - 50) (p.insp_band.2 + lerpRand (o (c + 7)) p.band_jitter_hz))
  let bandExp : ℝ × ℝ :=
    (max 10 (p.exp_band.1 + lerpRand (o (c + 8)) p.band_jitter_hz),
     min (p.fs / 2 - 50) (p.exp_band.2 + lerpRand (o (c + 9)) p.band_jitter_hz))
  let nInsp := (jsRound (p.fs * inspDur)).toNat
  let nMid := (jsRound (p.fs * midGap)).toNat
  let nExp := (jsRound (p.fs * expDur)).toNat
  let nPause := (jsRound (p.fs * postPause)).toNat
  let N := nInsp + nMid + nExp + nPause
  let t := (List.range N).map fun (i : ℕ) => (i : ℝ) / p.fs
  let gs := gaussList o N (c + 10)
  let x := gs.1.mapIdx fun i g =>
    g * (1 + p.jitter_amp * Real.sin (2 * Real.pi * 0.4 * i / p.fs))
  let env := breathEnv inspAmp expAmp nInsp nMid nExp nPause
  let xInsp := bandpassSafe x p.fs bandInsp.1 bandInsp.2 4
  let xExp := bandpassSafe x p.fs bandExp.1 bandExp.2 4
  let cross := jsRound (p.crossfade_s * p.fs)
  let i1 : ℤ := max 0 ((nInsp : ℤ) - cross)
  let i2 : ℤ := min (N : ℤ) ((nInsp : ℤ) + cross)
  let w := (List.range N).map fun (i : ℕ) =>
    if i1 < i2 ∧ i1 ≤ (i : ℤ) ∧ (i : ℤ) < i2 then
      1 - ((i : ℝ) - (i1 : ℝ)) / ((i2 : ℝ) - (i1 : ℝ))
    else if i < nInsp then 1 else 0
  let y0 := (List.range N).map fun (i : ℕ) =>
    (w.getD i 0 * xInsp.getD i 0 + (1 - w.getD i 0) * xExp.getD i 0) * env.getD i 0
  let peak := maxAbsD y0 1e-9
  ⟨y0.map fun v => 0.95 * v / peak, t, env, gs.2⟩

structure BreathOut where
  y : List ℝ
  t : List ℝ
  env : List ℝ
  cur : ℕ

/-- The `nCycles` concatenation loop of `synthBreathRandomCycles`. -/
def breathLoop (p : BreathParamsR) (o : RStream) :
    ℕ → ℝ → BreathOut → BreathOut
  | 0, _, acc => acc
  | k + 1, offset, acc =>
    let r := oneCycleRandom p o acc.cur
    breathLoop p o k (offset + r.y.length / p.fs)
      ⟨acc.y ++ r.y, acc.t ++ r.t.map (· + offset), acc.env ++ r.env, r.cur⟩

/-- `synthBreathRandomCycles` with an explicit seed (the UI entry points
always pass one); the generator is the lung section's seeded `rng`. -/
def synthBreathRandomCycles (fs : ℝ) (nCycles : ℕ) (seed : ℕ) : BreathOut :=
  breathLoop (defaultBreath fs) (lungRngStream seed) nCycles 0 ⟨[], [], [], 0⟩

/-- `pinkNoise(N, rand)`: sixteen scaled coin-flip random walks, summed and
peak-normalised.  Row `r` consumes draws `c + r·N .. c + r·N + N - 1`. -/
def pinkNoise (N : ℕ) (o : RStream) (c : ℕ) : List ℝ × ℕ :=
  let acc := (List.range N).map fun (i : ℕ) =>
    ∑ r ∈ Finset.range 16,
      (1 / 2 ^ r : ℝ) * ∑ j ∈ Finset.range (i + 1), (o (c + r * N + j) - 0.5)
  let maxAbs := maxAbsD acc 1e-9
  (acc.map (· / maxAbs), c + 16 * N)

/-- `makeEnvNoise(fs, duration, seed, mix, band)`: pink noise plus
band-passed gaussian noise, each normalised, mixed and re-normalised. -/
def makeEnvNoise (fs duration : ℝ) (seed : ℕ) (mix band : ℝ × ℝ) : List ℝ :=
  let o := lungRngStream seed
  let N := (max 1 (jsRound (duration * fs))).toNat
  let pn := pinkNoise N o 0
  let gs := gaussList o N pn.2
  let nb := bandpassSafe gs.1 fs band.1 band.2 4
  let maxNb := maxAbsD nb 1e-9
  let nb2 := nb.map (· / maxNb)
  let out := (List.range N).map fun (i : ℕ) =>
    mix.1 * pn.1.getD i 0 + mix.2 * nb2.getD i 0
  let maxAbs := maxAbsD out 1e-9
  out.map (· / maxAbs)

/-- The lung section's `addNoiseSNR`: scale a seeded environment-noise track
so that `meanSq(sig) / meanSq(scale·noise) = 10^(snr/10)` (its `rms` helper
is the sqrt-free line-678 declaration), add it, and peak-normalise to 0.95. -/
def addNoiseSNR (sig : List ℝ) (fs snrDb : ℝ) (seed : ℕ) (mix band : ℝ × ℝ) :
    List ℝ :=
  let noise := makeEnvNoise fs (sig.length / fs) seed mix band
  let sigPower := rms678 sig
  let noisePower := rms678 noise
  let scale := Real.sqrt ((sigPower / Real.rpow 10 (snrDb / 10)) /
    (if noisePower = 0 then 1 else noisePower))
  let y := (List.range sig.length).map fun (i : ℕ) =>
    sig.getD i 0 + scale * noise.getD i 0
  let peak := maxAbsD y 1e-9
  y.map fun v => 0.95 * v / peak

/-- `resampleTo(y, count)` (NotFound.tsx line 896): identical interpolation to
the pcg resampler, but negative counts fault at the array allocation. -/
def resampleTo (y : List ℝ) (count : ℤ) : Option (List ℝ) :=
  if (y.length : ℤ) = count then some y
  else if count < 0 then none
  else some <| (List.range count.toNat).map fun (i : ℕ) =>
    let n : ℝ := (y.length : ℝ) - 1
    let idx := (i : ℝ) * n / max 1 ((count : ℝ) - 1)
    let i0 := ⌊idx⌋
    let i1 := min ((y.length : ℤ) - 1) (i0 + 1)
    let w := idx - (i0 : ℝ)
    y.getD i0.toNat 0 * (1 - w) + y.getD i1.toNat 0 * w

/-- `genNormalLungSignal(count, cycles)`. -/
def genNormalLungSignal (count : ℤ) (cycles : ℝ) : Option (List ℝ) :=
  let base := synthBreathRandomCycles 1000 (max 1 ⌊cycles⌋).toNat 2025
  let y := addNoiseSNR base.y 1000 12 2025 (0.2, 0.8) (80, 3000)
  resampleTo y count

end Lung

/-! ### Specification-side combinators

Named forms of the weak-signal handling steps of `simulateMultibeat`,
following the spec's description; the claim theorems compare the embedded
source against these. -/

/-- "peak < 1e-6 → ×100": the weak-signal correction. -/
def weakAmplify (p : List ℝ) : List ℝ :=
  if maxAbsD p 1e-8 < 1e-6 then p.map (· * 100) else p

/-- "divide by max absolute value, multiply by a safety margin": one
peak-normalisation pass with floor `1e-8`. -/
def peakNormalize (m : ℝ) (p : List ℝ) : List ℝ :=
  p.map fun v => m * v / maxAbsD p 1e-8

/-- "a near-zero concatenated result is further amplified": the final ×10
correction of `simulateMultibeat`. -/
def finalAmplifyWeak (p : List ℝ) : List ℝ :=
  if p.length = 0 ∨ maxAbsD p 0 < 0.01 then p.map (· * 10) else p

/-! ### Evaluation lemmas for the random draws -/

theorem drawNZ_pos {o : RStream} {c : ℕ} (h : o c ≠ 0) :
    drawNZ o c = (o c, c + 1) := by
  have hex : ∃ j, c ≤ j ∧ o j ≠ 0 := ⟨c, le_refl c, h⟩
  have hfind : Nat.find hex = c := by
    rw [Nat.find_eq_iff]
    exact ⟨⟨le_refl c, h⟩, fun m hm hc => absurd hc.1 (by omega)⟩
  simp only [drawNZ, dif_pos hex, hfind]

theorem gaussianDraw_eval {o : RStream} {c : ℕ} (h1 : o c ≠ 0)
    (h2 : o (c + 1) ≠ 0) :
    gaussianDraw o c =
      (Real.sqrt (-2 * Real.log (o c)) * Real.cos (2 * Real.pi * o (c + 1)),
        c + 2) := by
  simp only [gaussianDraw, drawNZ_pos h1, drawNZ_pos h2]

/-- A gaussian draw whose second uniform is `1/4` is exactly zero
(`cos(π/2) = 0`). -/
theorem gaussianDraw_quarter {o : RStream} {c : ℕ} (h1 : o c ≠ 0)
    (h2 : o (c + 1) = 1 / 4) : gaussianDraw o c = (0, c + 2) := by
  rw [gaussianDraw_eval h1 (by rw [h2]; norm_num), h2]
  have : 2 * Real.pi * (1 / 4 : ℝ) = Real.pi / 2 := by ring
  rw [this, Real.cos_pi_div_two, mul_zero]

/-- A stream that alternates `1/2` (parity of `m`) and `1/4` from `m` on
produces only zero gaussians. -/
theorem gaussList_zeroPattern {o : RStream} {m : ℕ}
    (ho : ∀ j, m ≤ j → o j = if j % 2 = m % 2 then 1 / 2 else 1 / 4) :
    ∀ n c, m ≤ c → c % 2 = m % 2 →
      gaussList o n c = (List.replicate n 0, c + 2 * n) := by
  intro n
  induction n with
  | zero => intro c _ _; simp [gaussList]
  | succ k ih =>
    intro c hc hpar
    have h1 : o c ≠ 0 := by rw [ho c hc, if_pos hpar]; norm_num
    have h2 : o (c + 1) = 1 / 4 := by
      rw [ho (c + 1) (by omega), if_neg (by omega)]
    rw [gaussList]
    simp only [gaussianDraw_quarter h1 h2, ih (c + 2) (by omega) (by omega)]
    rw [List.replicate_succ]
    refine Prod.ext rfl ?_
    simp only []
    omega

/-! ### Bound and length helpers -/

theorem maxAbsD_cons (x : ℝ) (l : List ℝ) (d : ℝ) :
    maxAbsD (x :: l) d = maxAbsD l (max d |x|) := rfl

theorem le_maxAbsD_seed (l : List ℝ) (d : ℝ) : d ≤ maxAbsD l d := by
  induction l generalizing d with
  | nil => simp [maxAbsD]
  | cons x xs ih => exact le_trans (le_max_left _ _) (ih (max d |x|))

theorem le_maxAbsD_of_mem {v : ℝ} {l : List ℝ} (d : ℝ) (h : v ∈ l) :
    |v| ≤ maxAbsD l d := by
  induction l generalizing d with
  | nil => cases h
  | cons x xs ih =>
    rcases List.mem_cons.mp h with h' | h'
    · subst h'
      exact le_trans (le_max_right d |v|) (le_maxAbsD_seed xs _)
    · exact ih _ h'

theorem abs_getD_le_maxAbsD {l : List ℝ} {d : ℝ} (hd : 0 ≤ d) (i : ℕ) :
    |l.getD i 0| ≤ maxAbsD l d := by
  by_cases hi : i < l.length
  · rw [List.getD_eq_getElem l 0 hi]
    exact le_maxAbsD_of_mem d (List.getElem_mem hi)
  · rw [List.getD_eq_default _ _ (le_of_not_lt hi)]
    simpa using le_trans hd (le_maxAbsD_seed l d)

theorem maxD_cons (x : ℝ) (l : List ℝ) (d : ℝ) :
    maxD (x :: l) d = maxD l (max d x) := rfl

theorem le_maxD_seed (l : List ℝ) (d : ℝ) : d ≤ maxD l d := by
  induction l generalizing d with
  | nil => simp [maxD]
  | cons x xs ih => exact le_trans (le_max_left _ _) (ih (max d x))

theorem le_maxD_of_mem {v : ℝ} {l : List ℝ} (d : ℝ) (h : v ∈ l) :
    v ≤ maxD l d := by
  induction l generalizing d with
  | nil => cases h
  | cons x xs ih =>
    rcases List.mem_cons.mp h with h' | h'
    · subst h'
      exact le_trans (le_max_right d v) (le_maxD_seed xs _)
    · exact ih _ h'

theorem maxD_le {l : List ℝ} {d b : ℝ} (hd : d ≤ b) (h : ∀ v ∈ l, v ≤ b) :
    maxD l d ≤ b := by
  induction l generalizing d with
  | nil => simpa [maxD] using hd
  | cons x xs ih =>
    rw [maxD_cons]
    exact ih (max_le hd (h x (List.mem_cons_self x xs)))
      fun v hv => h v (List.mem_cons_of_mem _ hv)

/-- Elements of one peak-normalisation pass are bounded by the margin. -/
theorem abs_normalized_le {l : List ℝ} {v : ℝ} (hv : v ∈ l) (m d : ℝ)
    (hm : 0 ≤ m) (hd : 0 < d) : |m * v / maxAbsD l d| ≤ m := by
  have hfp : d ≤ maxAbsD l d := le_maxAbsD_seed l _
  have hfp0 : (0 : ℝ) < maxAbsD l d := lt_of_lt_of_le hd hfp
  have hvle : |v| ≤ maxAbsD l d := le_maxAbsD_of_mem _ hv
  rw [abs_div, abs_mul, abs_of_nonneg hm, abs_of_pos hfp0, div_le_iff₀ hfp0]
  exact mul_le_mul_of_nonneg_left hvle hm

/-- A convex combination with weight in `[0,1]` of values bounded by `M` is
bounded by `M`. -/
theorem abs_convex_le {a b w M : ℝ} (ha : |a| ≤ M) (hb : |b| ≤ M)
    (hw0 : 0 ≤ w) (hw1 : w ≤ 1) : |a * (1 - w) + b * w| ≤ M := by
  have h1 : |a * (1 - w)| = |a| * (1 - w) := by
    rw [abs_mul, abs_of_nonneg (show (0 : ℝ) ≤ 1 - w by linarith)]
  have h2 : |b * w| = |b| * w := by rw [abs_mul, abs_of_nonneg hw0]
  calc |a * (1 - w) + b * w| ≤ |a * (1 - w)| + |b * w| := abs_add _ _
    _ = |a| * (1 - w) + |b| * w := by rw [h1, h2]
    _ ≤ M * (1 - w) + M * w := by
        have hM : 0 ≤ M := le_trans (abs_nonneg a) ha
        exact add_le_add (mul_le_mul_of_nonneg_right ha (by linarith))
          (mul_le_mul_of_nonneg_right hb hw0)
    _ = M := by ring

/-! ### Filter evaluation lemmas -/

theorem onePoleAux_one (l : List ℝ) (p : ℝ) :
    Pcg.onePoleAux 1 l p = List.replicate l.length p := by
  induction l generalizing p with
  | nil => rfl
  | cons x xs ih =>
    have h : (1 : ℝ) * p + (1 - 1) * x = p := by ring
    simp only [Pcg.onePoleAux, h, ih, List.length_cons, List.replicate_succ]

theorem onePoleL_one (l : List ℝ) :
    Pcg.onePoleL 1 l = List.replicate l.length 0 := by
  cases l with
  | nil => rfl
  | cons x xs =>
    simp only [Pcg.onePoleL, onePoleAux_one, List.length_cons,
      List.replicate_succ]

theorem onePoleL_one_replicate (n m : ℕ) :
    (Pcg.onePoleL 1)^[m] (List.replicate n (0 : ℝ)) = List.replicate n 0 := by
  induction m with
  | zero => rfl
  | succ k ih =>
    rw [Function.iterate_succ_apply, onePoleL_one, List.length_replicate, ih]

theorem onePoleAux_length (a : ℝ) (l : List ℝ) (p : ℝ) :
    (Pcg.onePoleAux a l p).length = l.length := by
  induction l generalizing p with
  | nil => rfl
  | cons x xs ih => simp [Pcg.onePoleAux, ih]

theorem onePoleL_length (a : ℝ) (l : List ℝ) :
    (Pcg.onePoleL a l).length = l.length := by
  cases l with
  | nil => rfl
  | cons x xs => simp [Pcg.onePoleL, onePoleAux_length]

theorem onePoleL_iterate_length (a : ℝ) (m : ℕ) (l : List ℝ) :
    ((Pcg.onePoleL a)^[m] l).length = l.length := by
  induction m generalizing l with
  | zero => rfl
  | succ k ih => rw [Function.iterate_succ_apply, ih, onePoleL_length]

theorem lowpassFilter_length (x : List ℝ) (fs cutoff : ℝ) (k : ℕ) :
    (Pcg.lowpassFilter x fs cutoff k).length = x.length := by
  rw [Pcg.lowpassFilter]
  exact onePoleL_iterate_length _ k x

theorem onepole_lowpass_length (x : List ℝ) (fc fs : ℝ) :
    (Fpcg.onepole_lowpass x fc fs).length = x.length := by
  rw [Fpcg.onepole_lowpass]
  by_cases h : fc ≤ 0
  · rw [if_pos h]
  · rw [if_neg h]; exact onePoleL_length _ x

theorem lowpassFilter_zero_cutoff (x : List ℝ) (fs : ℝ) (k : ℕ)
    (hfs : 2 ≤ fs) (hk : 1 ≤ k) :
    Pcg.lowpassFilter x fs 0 k = List.replicate x.length 0 := by
  rw [Pcg.lowpassFilter]
  have hmin : min (0 : ℝ) (fs / 2 - 1) = 0 := min_eq_left (by linarith)
  have ha : Real.exp (-2 * Real.pi * min (0 : ℝ) (fs / 2 - 1) / fs) = 1 := by
    rw [hmin, show -2 * Real.pi * 0 / fs = 0 by ring, Real.exp_zero]
  rw [ha]
  obtain ⟨k', rfl⟩ : ∃ k', k = k' + 1 := ⟨k - 1, by omega⟩
  rw [Function.iterate_succ_apply, onePoleL_one, onePoleL_one_replicate]

/-! ### Claim C9 -/

/-- C9: resampling a waveform of length `L` to target length `L` returns the
original values unchanged — both resampler implementations take the
direct-copy branch on an exact length match. -/
theorem C9_resampler_identity :
    (∀ t y : List ℝ, Pcg.resampleToLength t y (y.length : ℤ) = y) ∧
    (∀ y : List ℝ, Lung.resampleTo y (y.length : ℤ) = some y) := by
  constructor
  · intro t y; simp [Pcg.resampleToLength]
  · intro y; simp [Lung.resampleTo]

/-! ### Claim C3 -/

/-- C3: for any requested `pointCount ≥ 1` and non-empty source waveform,
both resamplers return an array of length exactly `pointCount` (the
NotFound.tsx one returning it successfully, i.e. without faulting). -/
theorem C3_resample_length (t y : List ℝ) (L : ℤ) (hL : 1 ≤ L)
    (hy : y ≠ []) :
    ((Pcg.resampleToLength t y L).length : ℤ) = L ∧
    ∃ r, Fpcg.resampleToLength t y L = some r ∧ (r.length : ℤ) = L := by
  refine ⟨?_, ?_⟩
  · rw [Pcg.resampleToLength]
    by_cases h : (y.length : ℤ) = L
    · rw [if_pos h]; exact h
    · rw [if_neg h, if_neg (by omega)]
      rw [List.length_map, List.length_range,
        Int.toNat_of_nonneg (by omega : (0 : ℤ) ≤ L)]
  · rw [Fpcg.resampleToLength]
    by_cases h : (y.length : ℤ) = L
    · exact ⟨y, by rw [if_pos h], h⟩
    · rw [if_neg h, if_neg (by omega)]
      exact ⟨_, rfl, by
        rw [List.length_map, List.length_range,
          Int.toNat_of_nonneg (by omega : (0 : ℤ) ≤ L)]⟩

/-- Witness for C3 at a concrete input. -/
theorem C3_resample_length_witness :
    (1 : ℤ) ≤ 3 ∧ ([(1 : ℝ), 2] ≠ []) ∧
      (((Pcg.resampleToLength [0] [1, 2] 3).length : ℤ) = 3 ∧
        ∃ r, Fpcg.resampleToLength [0] [1, 2] 3 = some r ∧
          (r.length : ℤ) = 3) :=
  ⟨by norm_num, by simp, C3_resample_length [0] [1, 2] 3 (by norm_num) (by simp)⟩

/-! ### Claim C7 -/

/-- C7 counterexample: `lowpassFilter` of pcg.ts has no `cutoff ≤ 0`
passthrough branch; at cutoff `0` the smoothing coefficient is
`exp(0) = 1` and the output is identically zero, not the input. -/
theorem C7_counterexample : Pcg.lowpassFilter [1, 1] 4000 0 4 ≠ [1, 1] := by
  rw [lowpassFilter_zero_cutoff [1, 1] 4000 4 (by norm_num) (by norm_num)]
  simp

/-- C7 (amended): the NotFound.tsx one-pole filters return the input
unchanged for `cutoff ≤ 0`; pcg.ts's `lowpassFilter` lacks that guard and at
cutoff `0` (with at least one stage and `fs ≥ 2`) returns the all-zero array
instead; no filter faults — each returns an array of the input's length for
every parameter value. -/
theorem C7_filter_degradation :
    (∀ (x : List ℝ) (fc fs : ℝ), fc ≤ 0 → Fpcg.onepole_lowpass x fc fs = x) ∧
    (∀ (x : List ℝ) (fc fs : ℝ), fc ≤ 0 → Fpcg.onepole_highpass x fc fs = x) ∧
    (∀ (x : List ℝ) (fs : ℝ) (k : ℕ), 2 ≤ fs → 1 ≤ k →
      Pcg.lowpassFilter x fs 0 k = List.replicate x.length 0) ∧
    (∀ (x : List ℝ) (fs cutoff : ℝ) (k : ℕ),
      (Pcg.lowpassFilter x fs cutoff k).length = x.length) ∧
    (∀ (x : List ℝ) (fc fs : ℝ),
      (Fpcg.onepole_lowpass x fc fs).length = x.length) := by
  refine ⟨?_, ?_, ?_, ?_, ?_⟩
  · intro x fc fs h; rw [Fpcg.onepole_lowpass, if_pos h]
  · intro x fc fs h; rw [Fpcg.onepole_highpass, if_pos h]
  · intro x fs k hfs hk; exact lowpassFilter_zero_cutoff x fs k hfs hk
  · intro x fs cutoff k; exact lowpassFilter_length x fs cutoff k
  · intro x fc fs; exact onepole_lowpass_length x fc fs

/-- Witness for C7 at concrete inputs. -/
theorem C7_filter_degradation_witness :
    Fpcg.onepole_lowpass [2, 3] (-1) 100 = [2, 3] ∧
    Fpcg.onepole_highpass [2, 3] (-1) 100 = [2, 3] ∧
    Pcg.lowpassFilter [5] 4000 0 4 = [0] ∧
    (Pcg.lowpassFilter [7, 8] 4000 (-3) 4).length = 2 ∧
    (Fpcg.onepole_lowpass [7, 8] 50 100).length = 2 := by
  refine ⟨C7_filter_degradation.1 [2, 3] (-1) 100 (by norm_num),
    C7_filter_degradation.2.1 [2, 3] (-1) 100 (by norm_num), ?_, ?_, ?_⟩
  · have := C7_filter_degradation.2.2.1 [5] 4000 4 (by norm_num) (by norm_num)
    simpa using this
  · simpa using C7_filter_degradation.2.2.2.1 [7, 8] 4000 (-3) 4
  · simpa using C7_filter_degradation.2.2.2.2 [7, 8] 50 100

/-! ### Claim C5: Poisson arrivals and event windows -/

/-- With draws in `[0,1)`, the exponential gaps are nonnegative, so the
arrival sequence is nondecreasing and every arrival dominates the start
time. -/
theorem poissonArrivals_mono {o : RStream} {lam total : ℝ}
    (hr : ∀ i, 0 ≤ o i ∧ o i < 1) :
    ∀ (fuel : ℕ) (t0 : ℝ) (c : ℕ) (l : List ℝ) (c' : ℕ),
      Fpcg.poissonArrivals o lam total fuel t0 c = some (l, c') →
      List.Chain' (· ≤ ·) (t0 :: l) ∧ ∀ x ∈ l, t0 ≤ x := by
  intro fuel
  induction fuel with
  | zero => intro t0 c l c' h; cases h
  | succ k ih =>
    intro t0 c l c' h
    rw [Fpcg.poissonArrivals] at h
    by_cases hlam : 0 < lam
    · rw [if_pos hlam] at h
      have hgap : 0 ≤ -Real.log (1 - o c) / lam := by
        have h1 : Real.log (1 - o c) ≤ 0 :=
          Real.log_nonpos (by linarith [(hr c).2]) (by linarith [(hr c).1])
        exact div_nonneg (by linarith) (le_of_lt hlam)
      by_cases hstop : total ≤ t0 + -Real.log (1 - o c) / lam
      · rw [if_pos hstop] at h
        obtain ⟨h1, h2⟩ := Option.some.injEq _ _ ▸ h
        cases h
        simp
      · rw [if_neg hstop] at h
        cases hrec : Fpcg.poissonArrivals o lam total k
            (t0 + -Real.log (1 - o c) / lam) (c + 1) with
        | none => rw [hrec] at h; cases h
        | some r =>
          rw [hrec] at h
          obtain ⟨l', c''⟩ := r
          obtain ⟨ihc, ihall⟩ := ih _ _ _ _ hrec
          cases h
          constructor
          · exact List.chain'_cons.mpr ⟨by linarith, ihc⟩
          · intro x hx
            rcases List.mem_cons.mp hx with h' | h'
            · linarith [h'.ge]
            · linarith [ihall x h']
    · rw [if_neg hlam] at h
      cases h
      simp

/-- What one movement-loop iteration does to the event list: either the
event is discarded (window shorter than 4 samples) or a window
`[⌊t·fs⌋, e)` with `⌊t·fs⌋ + 4 ≤ e ≤ total_len` is appended. -/
theorem movementStep_events (total_len : ℕ) (fs : ℝ) (opts : Fpcg.MovementOpts)
    (o : RStream) (st : Fpcg.MoveState) (t : ℝ) :
    (Fpcg.movementStep total_len fs opts o st t).events = st.events ∨
    ∃ e : ℤ, (Fpcg.movementStep total_len fs opts o st t).events =
        st.events ++ [(⌊t * fs⌋, e)] ∧ ⌊t * fs⌋ + 4 ≤ e ∧ e ≤ total_len := by
  rw [Fpcg.movementStep]
  by_cases h : min (total_len : ℤ)
      (⌊t * fs⌋ + max 1 ⌊(opts.duration_range.1 +
        o st.cur * (opts.duration_range.2 - opts.duration_range.1)) * fs⌋) -
      ⌊t * fs⌋ < 4
  · rw [if_pos h]; exact Or.inl rfl
  · rw [if_neg h]
    exact Or.inr ⟨_, rfl, by omega, min_le_left _ _⟩

/-- What one UC-loop iteration does to the event list: either discarded
(window shorter than 8 samples) or a window `[⌊t·fs⌋, e)` with
`⌊t·fs⌋ + 8 ≤ e ≤ total_len` is appended. -/
theorem ucStep_events (total_len : ℕ) (fs : ℝ) (opts : Fpcg.UcOpts)
    (o : RStream) (st : Fpcg.UcState) (t : ℝ) :
    (Fpcg.ucStep total_len fs opts o st t).events = st.events ∨
    ∃ ev : Fpcg.UcEvent, (Fpcg.ucStep total_len fs opts o st t).events =
        st.events ++ [ev] ∧ ev.start = ⌊t * fs⌋ ∧
        ⌊t * fs⌋ + 8 ≤ ev.stop ∧ ev.stop ≤ total_len := by
  rw [Fpcg.ucStep]
  by_cases h : min (total_len : ℤ)
      (⌊t * fs⌋ + max 1 ⌊(opts.duration_range.1 +
        o st.cur * (opts.duration_range.2 - opts.duration_range.1)) * fs⌋) -
      ⌊t * fs⌋ < 8
  · rw [if_pos h]; exact Or.inl rfl
  · rw [if_neg h]
    refine Or.inr ⟨_, rfl, rfl, ?_, ?_⟩
    · show ⌊t * fs⌋ + 8 ≤ min (total_len : ℤ)
        (⌊t * fs⌋ + max 1 ⌊(opts.duration_range.1 +
          o st.cur * (opts.duration_range.2 - opts.duration_range.1)) * fs⌋)
      omega
    · show min (total_len : ℤ)
        (⌊t * fs⌋ + max 1 ⌊(opts.duration_range.1 +
          o st.cur * (opts.duration_range.2 - opts.duration_range.1)) * fs⌋) ≤
          (total_len : ℤ)
      exact min_le_left _ _

/-- Generic invariant for the event-placement folds: if each step either
keeps the event list or appends one event starting at `⌊t·fs⌋` satisfying
`P`, then folding over a sorted list of nonnegative arrival times yields an
event list that is monotone in start and pointwise `P`. -/
theorem foldl_events_mono {σ E : Type} (step : σ → ℝ → σ)
    (events : σ → List E) (start : E → ℤ) (P : E → Prop) (fs : ℝ)
    (hfs : 0 ≤ fs)
    (hstep : ∀ st t, 0 ≤ t → events (step st t) = events st ∨
      ∃ ev, events (step st t) = events st ++ [ev] ∧ start ev = ⌊t * fs⌋ ∧ P ev) :
    ∀ (starts : List ℝ) (st : σ),
      List.Pairwise (· ≤ ·) starts → (∀ t ∈ starts, 0 ≤ t) →
      List.Pairwise (fun a b => start a ≤ start b) (events st) →
      (∀ e ∈ events st, P e) →
      (∀ e ∈ events st, ∀ s ∈ starts, start e ≤ ⌊s * fs⌋) →
      List.Pairwise (fun a b => start a ≤ start b)
          (events (starts.foldl step st)) ∧
        ∀ e ∈ events (starts.foldl step st), P e := by
  intro starts
  induction starts with
  | nil => intro st _ _ hp hP _; exact ⟨hp, hP⟩
  | cons t rest ih =>
    intro st hsort hpos hp hP hfut
    rw [List.foldl_cons]
    have hsort' := (List.pairwise_cons.mp hsort).2
    have hhead := (List.pairwise_cons.mp hsort).1
    have hpos' : ∀ s ∈ rest, 0 ≤ s := fun s hs => hpos s (List.mem_cons_of_mem _ hs)
    rcases hstep st t (hpos t (List.mem_cons_self t rest)) with he | ⟨ev, he, hs, hPev⟩
    · refine ih (step st t) hsort' hpos' ?_ ?_ ?_
      · rw [he]; exact hp
      · rw [he]; exact hP
      · rw [he]; intro e hme s hms
        exact hfut e hme s (List.mem_cons_of_mem _ hms)
    · refine ih (step st t) hsort' hpos' ?_ ?_ ?_
      · rw [he]
        refine List.pairwise_append.mpr ⟨hp, List.pairwise_singleton _ _, ?_⟩
        intro a ha b hb
        rw [List.mem_singleton] at hb
        subst hb
        rw [hs]
        exact hfut a ha t (List.mem_cons_self t rest)
      · rw [he]; intro e hme
        rcases List.mem_append.mp hme with h' | h'
        · exact hP e h'
        · rw [List.mem_singleton] at h'; subst h'; exact hPev
      · rw [he]; intro e hme s hms
        rcases List.mem_append.mp hme with h' | h'
        · exact hfut e h' s (List.mem_cons_of_mem _ hms)
        · rw [List.mem_singleton] at h'; subst h'
          rw [hs]
          exact Int.floor_le_floor
            (mul_le_mul_of_nonneg_right (hhead s hms) hfs)

/-- Events of a completed `generate_movement_artifacts` run: nondecreasing
starts, window at least 4 samples, clipped to `[0, total_len]`. -/
theorem movementRun_events {fuel total_len : ℕ} {fs : ℝ}
    {opts : Fpcg.MovementOpts} {o : RStream} {c : ℕ}
    (hr : ∀ i, 0 ≤ o i ∧ o i < 1) (hfs : 0 ≤ fs)
    (res : Fpcg.FArr × List (ℤ × ℤ) × ℕ)
    (h : Fpcg.movementRun fuel total_len fs opts o c = some res) :
    List.Pairwise (fun a b : ℤ × ℤ => a.1 ≤ b.1) res.2.1 ∧
    ∀ ev ∈ res.2.1, ev.1 + 4 ≤ ev.2 ∧ 0 ≤ ev.1 ∧ ev.2 ≤ (total_len : ℤ) := by
  rw [Fpcg.movementRun] at h
  cases hp : Fpcg.poissonArrivals o (opts.rate_per_min / 60)
      ((total_len : ℝ) / fs) fuel 0 c with
  | none => rw [hp] at h; cases h
  | some r =>
    rw [hp] at h
    obtain ⟨starts, c1⟩ := r
    obtain ⟨hchain, hge⟩ := poissonArrivals_mono hr fuel 0 c starts c1 hp
    have hsorted : List.Pairwise (· ≤ ·) starts :=
      ((List.chain'_iff_pairwise.mp hchain).sublist (List.sublist_cons_self 0 starts))
    have hstep : ∀ (st : Fpcg.MoveState) t, 0 ≤ t →
        (Fpcg.movementStep total_len fs opts o st t).events = st.events ∨
        ∃ ev, (Fpcg.movementStep total_len fs opts o st t).events =
            st.events ++ [ev] ∧ ev.1 = ⌊t * fs⌋ ∧
            (ev.1 + 4 ≤ ev.2 ∧ 0 ≤ ev.1 ∧ ev.2 ≤ (total_len : ℤ)) := by
      intro st t ht
      rcases movementStep_events total_len fs opts o st t with he | ⟨e, he, h4, hle⟩
      · exact Or.inl he
      · refine Or.inr ⟨_, he, rfl, h4, ?_, hle⟩
        have : (0 : ℝ) ≤ t * fs := mul_nonneg ht hfs
        simpa using Int.floor_le_floor this
    have := foldl_events_mono (Fpcg.movementStep total_len fs opts o)
      Fpcg.MoveState.events Prod.fst
      (fun ev => ev.1 + 4 ≤ ev.2 ∧ 0 ≤ ev.1 ∧ ev.2 ≤ (total_len : ℤ)) fs hfs
      hstep starts ⟨Fpcg.zerosA total_len, [], c1⟩ hsorted hge
      List.Pairwise.nil (by intro e he; cases he)
      (by intro e he; cases he)
    cases h
    constructor
    · exact this.1
    · intro ev hev
      rcases this.2 ev hev with ⟨h4, h0, hle⟩
      exact ⟨by omega, h0, hle⟩

/-- Events of a completed `generate_uc_envelope` run: nondecreasing starts,
window at least 8 samples, clipped to `[0, total_len]`. -/
theorem ucRun_events {fuel total_len : ℕ} {fs : ℝ}
    {opts : Fpcg.UcOpts} {o : RStream} {c : ℕ}
    (hr : ∀ i, 0 ≤ o i ∧ o i < 1) (hfs : 0 ≤ fs)
    (res : Fpcg.FArr × Fpcg.FArr × List Fpcg.UcEvent × ℕ)
    (h : Fpcg.ucRun fuel total_len fs opts o c = some res) :
    List.Pairwise (fun a b : Fpcg.UcEvent => a.start ≤ b.start) res.2.2.1 ∧
    ∀ ev ∈ res.2.2.1,
      ev.start + 8 ≤ ev.stop ∧ 0 ≤ ev.start ∧ ev.stop ≤ (total_len : ℤ) := by
  rw [Fpcg.ucRun] at h
  cases hp : Fpcg.poissonArrivals o (opts.rate_per_10min / 600)
      ((total_len : ℝ) / fs) fuel 0 c with
  | none => rw [hp] at h; cases h
  | some r =>
    rw [hp] at h
    obtain ⟨starts, c1⟩ := r
    obtain ⟨hchain, hge⟩ := poissonArrivals_mono hr fuel 0 c starts c1 hp
    have hsorted : List.Pairwise (· ≤ ·) starts :=
      ((List.chain'_iff_pairwise.mp hchain).sublist (List.sublist_cons_self 0 starts))
    have hstep : ∀ (st : Fpcg.UcState) t, 0 ≤ t →
        (Fpcg.ucStep total_len fs opts o st t).events = st.events ∨
        ∃ ev, (Fpcg.ucStep total_len fs opts o st t).events =
            st.events ++ [ev] ∧ ev.start = ⌊t * fs⌋ ∧
            (ev.start + 8 ≤ ev.stop ∧ 0 ≤ ev.start ∧
              ev.stop ≤ (total_len : ℤ)) := by
      intro st t ht
      rcases ucStep_events total_len fs opts o st t with he | ⟨e, he, hst, h8, hle⟩
      · exact Or.inl he
      · refine Or.inr ⟨_, he, hst, by omega, ?_, hle⟩
        rw [hst]
        have : (0 : ℝ) ≤ t * fs := mul_nonneg ht hfs
        simpa using Int.floor_le_floor this
    have := foldl_events_mono (Fpcg.ucStep total_len fs opts o)
      Fpcg.UcState.events Fpcg.UcEvent.start
      (fun ev => ev.start + 8 ≤ ev.stop ∧ 0 ≤ ev.start ∧
        ev.stop ≤ (total_len : ℤ)) fs hfs
      hstep starts ⟨Fpcg.zerosA total_len, [], c1⟩ hsorted hge
      List.Pairwise.nil (by intro e he; cases he)
      (by intro e he; cases he)
    cases h
    exact this

/-- C5 (amended): for draws in `[0,1)` the Poisson arrival times are
NONDECREASING (strict increase can fail on a zero draw, see the
counterexample) and nonnegative; every completed movement/UC event list has
nondecreasing starts, `start < end`, and windows clipped to
`[0, total_len]`. -/
theorem C5_event_monotonicity :
    (∀ (o : RStream) (lam total : ℝ) (fuel c : ℕ) (l : List ℝ) (c' : ℕ),
      (∀ i, 0 ≤ o i ∧ o i < 1) →
      Fpcg.poissonArrivals o lam total fuel 0 c = some (l, c') →
      List.Chain' (· ≤ ·) l ∧ ∀ x ∈ l, 0 ≤ x) ∧
    (∀ (fuel total_len : ℕ) (fs : ℝ) (opts : Fpcg.MovementOpts)
      (o : RStream) (c : ℕ) (res : Fpcg.FArr × List (ℤ × ℤ) × ℕ),
      (∀ i, 0 ≤ o i ∧ o i < 1) → 0 ≤ fs →
      Fpcg.movementRun fuel total_len fs opts o c = some res →
      List.Chain' (fun a b : ℤ × ℤ => a.1 ≤ b.1) res.2.1 ∧
      ∀ ev ∈ res.2.1, ev.1 < ev.2 ∧ 0 ≤ ev.1 ∧ ev.2 ≤ (total_len : ℤ)) ∧
    (∀ (fuel total_len : ℕ) (fs : ℝ) (opts : Fpcg.UcOpts)
      (o : RStream) (c : ℕ)
      (res : Fpcg.FArr × Fpcg.FArr × List Fpcg.UcEvent × ℕ),
      (∀ i, 0 ≤ o i ∧ o i < 1) → 0 ≤ fs →
      Fpcg.ucRun fuel total_len fs opts o c = some res →
      List.Chain' (fun a b : Fpcg.UcEvent => a.start ≤ b.start) res.2.2.1 ∧
      ∀ ev ∈ res.2.2.1,
        ev.start < ev.stop ∧ 0 ≤ ev.start ∧ ev.stop ≤ (total_len : ℤ)) := by
  refine ⟨?_, ?_, ?_⟩
  · intro o lam total fuel c l c' hr h
    obtain ⟨hchain, hge⟩ := poissonArrivals_mono hr fuel 0 c l c' h
    exact ⟨hchain.tail, hge⟩
  · intro fuel total_len fs opts o c res hr hfs h
    obtain ⟨hpair, hP⟩ := movementRun_events hr hfs res h
    refine ⟨hpair.chain', ?_⟩
    intro ev hev
    rcases hP ev hev with ⟨h4, h0, hle⟩
    exact ⟨by omega, h0, hle⟩
  · intro fuel total_len fs opts o c res hr hfs h
    obtain ⟨hpair, hP⟩ := ucRun_events hr hfs res h
    refine ⟨hpair.chain', ?_⟩
    intro ev hev
    rcases hP ev hev with ⟨h8, h0, hle⟩
    exact ⟨by omega, h0, hle⟩

/-- The stream exhibiting equal consecutive arrivals: two zero draws
(`Math.random` legitimately returns `0`), then a draw that ends the loop. -/
def oC5 : RStream := fun i => if i = 2 then 1 - Real.exp (-1) else 0

/-- C5 counterexample: with zero uniform draws the exponential gaps are zero,
so the Poisson stage emits the arrival time `0` twice — the arrival times are
NOT strictly increasing. -/
theorem C5_counterexample :
    (Fpcg.poissonArrivals oC5 1 (1 / 2) 5 0 0).map Prod.fst = some [0, 0] ∧
    ¬ List.Chain' (· < ·) [(0 : ℝ), 0] := by
  constructor
  · have h0 : oC5 0 = 0 := rfl
    have h1 : oC5 1 = 0 := rfl
    have h2 : oC5 2 = 1 - Real.exp (-1) := rfl
    have hgap0 : -Real.log (1 - oC5 0) / 1 = 0 := by
      rw [h0]; simp
    have hgap1 : -Real.log (1 - oC5 1) / 1 = 0 := by
      rw [h1]; simp
    have hgap2 : -Real.log (1 - oC5 2) / 1 = 1 := by
      rw [h2]
      have : (1 : ℝ) - (1 - Real.exp (-1)) = Real.exp (-1) := by ring
      rw [this, Real.log_exp]
      norm_num
    rw [Fpcg.poissonArrivals, if_pos one_pos, hgap0]
    rw [if_neg (by norm_num)]
    rw [Fpcg.poissonArrivals, if_pos one_pos, hgap1]
    rw [if_neg (by norm_num)]
    rw [Fpcg.poissonArrivals, if_pos one_pos, hgap2]
    rw [if_pos (by norm_num)]
    norm_num
  · simp

/-- Witness for C5: a degenerate-rate Poisson stage (immediate break) and
rate-zero movement/UC runs discharge every hypothesis. -/
theorem C5_event_monotonicity_witness :
    ((∀ i, 0 ≤ (fun _ : ℕ => (1 : ℝ) / 2) i ∧ (fun _ : ℕ => (1 : ℝ) / 2) i < 1) ∧
      Fpcg.poissonArrivals (fun _ => 1 / 2) 0 1 1 0 0 = some ([], 0)) ∧
    (∃ res, Fpcg.movementRun 1 100 1000 ⟨0, (0.2, 0.6), (15, 200), 1, 0.25⟩
        (fun _ => 1 / 2) 0 = some res ∧
      (List.Chain' (fun a b : ℤ × ℤ => a.1 ≤ b.1) res.2.1 ∧
        ∀ ev ∈ res.2.1, ev.1 < ev.2 ∧ 0 ≤ ev.1 ∧ ev.2 ≤ (100 : ℤ))) ∧
    (∃ res, Fpcg.ucRun 1 100 1000 ⟨0, (30, 90), (0.3, 0.3), 0.45, (0.5, 20), 0.8⟩
        (fun _ => 1 / 2) 0 = some res ∧
      (List.Chain' (fun a b : Fpcg.UcEvent => a.start ≤ b.start) res.2.2.1 ∧
        ∀ ev ∈ res.2.2.1,
          ev.start < ev.stop ∧ 0 ≤ ev.start ∧ ev.stop ≤ (100 : ℤ))) := by
  have hr : ∀ i, 0 ≤ (fun _ : ℕ => (1 : ℝ) / 2) i ∧
      (fun _ : ℕ => (1 : ℝ) / 2) i < 1 := fun i => by norm_num
  have hpz : ∀ (total : ℝ) (c : ℕ),
      Fpcg.poissonArrivals (fun _ => (1 : ℝ) / 2) 0 total 1 0 c = some ([], c) := by
    intro total c
    rw [Fpcg.poissonArrivals, if_neg (by norm_num)]
  refine ⟨⟨hr, hpz 1 0⟩, ?_, ?_⟩
  · have hsome : Fpcg.movementRun 1 100 1000 ⟨0, (0.2, 0.6), (15, 200), 1, 0.25⟩
        (fun _ => 1 / 2) 0 = some (Fpcg.zerosA 100, [], 0) := by
      rw [Fpcg.movementRun]
      have : (0 : ℝ) / 60 = 0 := by norm_num
      rw [this, hpz]
      rfl
    exact ⟨_, hsome, C5_event_monotonicity.2.1 1 100 1000 _ _ 0 _ hr
      (by norm_num) hsome⟩
  · have hsome : ∃ res, Fpcg.ucRun 1 100 1000
        ⟨0, (30, 90), (0.3, 0.3), 0.45, (0.5, 20), 0.8⟩
        (fun _ => 1 / 2) 0 = some res := by
      rw [Fpcg.ucRun]
      have h600 : (0 : ℝ) / 600 = 0 := by norm_num
      rw [h600, hpz]
      exact ⟨_, rfl⟩
    obtain ⟨res, hres⟩ := hsome
    exact ⟨res, hres, C5_event_monotonicity.2.2 1 100 1000 _ _ 0 res hr
      (by norm_num) hres⟩

/-! ### Claim C8: envelope ranges -/

theorem ucEnvSeg_bounds (lr lp lf i : ℕ) :
    0 ≤ Fpcg.ucEnvSeg lr lp lf i ∧ Fpcg.ucEnvSeg lr lp lf i ≤ 1 := by
  rw [Fpcg.ucEnvSeg]
  split_ifs with h1 h2 h3
  · constructor
    · nlinarith [Real.cos_le_one (Real.pi * i / lr)]
    · nlinarith [Real.neg_one_le_cos (Real.pi * i / lr)]
  · norm_num
  · constructor
    · nlinarith [Real.neg_one_le_cos (Real.pi * ((i : ℝ) - lr - lp) / lf)]
    · nlinarith [Real.cos_le_one (Real.pi * ((i : ℝ) - lr - lp) / lf)]
  · norm_num

theorem ucStep_env_bounds (total_len : ℕ) (fs : ℝ) (opts : Fpcg.UcOpts)
    (o : RStream) (st : Fpcg.UcState) (t : ℝ)
    (hv : ∀ j, 0 ≤ st.env.val j ∧ st.env.val j ≤ 1) :
    (Fpcg.ucStep total_len fs opts o st t).env.len = st.env.len ∧
    ∀ j, 0 ≤ (Fpcg.ucStep total_len fs opts o st t).env.val j ∧
      (Fpcg.ucStep total_len fs opts o st t).env.val j ≤ 1 := by
  rw [Fpcg.ucStep]
  split_ifs with h
  · exact ⟨rfl, hv⟩
  · refine ⟨rfl, ?_⟩
    intro j
    show 0 ≤ (if _ ∧ _ then max (st.env.val j) (Fpcg.ucEnvSeg _ _ _ _)
        else st.env.val j) ∧
      (if _ ∧ _ then max (st.env.val j) (Fpcg.ucEnvSeg _ _ _ _)
        else st.env.val j) ≤ 1
    split_ifs with hc
    · exact ⟨le_max_of_le_left (hv j).1,
        max_le (hv j).2 (ucEnvSeg_bounds _ _ _ _).2⟩
    · exact hv j

theorem ucFold_env_bounds (total_len : ℕ) (fs : ℝ) (opts : Fpcg.UcOpts)
    (o : RStream) :
    ∀ (starts : List ℝ) (st : Fpcg.UcState),
      (∀ j, 0 ≤ st.env.val j ∧ st.env.val j ≤ 1) →
      st.env.len = total_len →
      (∀ j, 0 ≤ (starts.foldl (Fpcg.ucStep total_len fs opts o) st).env.val j ∧
        (starts.foldl (Fpcg.ucStep total_len fs opts o) st).env.val j ≤ 1) ∧
      (starts.foldl (Fpcg.ucStep total_len fs opts o) st).env.len = total_len := by
  intro starts
  induction starts with
  | nil => intro st hv hlen; exact ⟨hv, hlen⟩
  | cons t rest ih =>
    intro st hv hlen
    rw [List.foldl_cons]
    obtain ⟨hlen', hv'⟩ := ucStep_env_bounds total_len fs opts o st t hv
    exact ih _ hv' (hlen' ▸ hlen)

/-- Envelope facts for a completed `generate_uc_envelope` run: correct length
and every value in `[0, 1]`. -/
theorem ucRun_env_bounds {fuel total_len : ℕ} {fs : ℝ} {opts : Fpcg.UcOpts}
    {o : RStream} {c : ℕ} (res : Fpcg.FArr × Fpcg.FArr × List Fpcg.UcEvent × ℕ)
    (h : Fpcg.ucRun fuel total_len fs opts o c = some res) :
    res.1.len = total_len ∧ ∀ j, 0 ≤ res.1.val j ∧ res.1.val j ≤ 1 := by
  rw [Fpcg.ucRun] at h
  cases hp : Fpcg.poissonArrivals o (opts.rate_per_10min / 600)
      ((total_len : ℝ) / fs) fuel 0 c with
  | none => rw [hp] at h; cases h
  | some r =>
    rw [hp] at h
    obtain ⟨starts, c1⟩ := r
    have := ucFold_env_bounds total_len fs opts o starts
      ⟨Fpcg.zerosA total_len, [], c1⟩ (by intro j; constructor <;> norm_num [Fpcg.zerosA]) rfl
    cases h
    exact ⟨this.2, this.1⟩

theorem raisedCosine_mem_bounds {v : ℝ} {m : ℕ}
    (h : v ∈ Lung.raisedCosine m) : 0 ≤ v ∧ v ≤ 1 := by
  rw [Lung.raisedCosine] at h
  simp only [List.mem_map, List.mem_range] at h
  obtain ⟨i, _, rfl⟩ := h
  constructor
  · nlinarith [Real.cos_le_one (Real.pi * i / m)]
  · nlinarith [Real.neg_one_le_cos (Real.pi * i / m)]

theorem halfEnv_mem_bounds {v : ℝ} {m k : ℕ}
    (h : v ∈ Lung.raisedCosine m ++ (Lung.raisedCosine m).reverse ++
      List.replicate k (0 : ℝ)) : 0 ≤ v ∧ v ≤ 1 := by
  rcases List.mem_append.mp h with h' | h'
  · rcases List.mem_append.mp h' with h'' | h''
    · exact raisedCosine_mem_bounds h''
    · exact raisedCosine_mem_bounds (List.mem_reverse.mp h'')
  · rw [List.eq_of_mem_replicate h']
    norm_num

theorem ratio_bounds {l : List ℝ} (hl : ∀ u ∈ l, 0 ≤ u) (i : ℕ) :
    0 ≤ l.getD i 0 / maxD l 1e-9 ∧ l.getD i 0 / maxD l 1e-9 ≤ 1 := by
  have hmax : (1e-9 : ℝ) ≤ maxD l 1e-9 := le_maxD_seed l _
  have hpos : (0 : ℝ) < maxD l 1e-9 := lt_of_lt_of_le (by norm_num) hmax
  have hg0 : 0 ≤ l.getD i 0 := by
    by_cases h : i < l.length
    · rw [List.getD_eq_getElem l 0 h]; exact hl _ (List.getElem_mem h)
    · rw [List.getD_eq_default _ _ (le_of_not_lt h)]
  have hgle : l.getD i 0 ≤ maxD l 1e-9 := by
    by_cases h : i < l.length
    · rw [List.getD_eq_getElem l 0 h]
      exact le_maxD_of_mem _ (List.getElem_mem h)
    · rw [List.getD_eq_default _ _ (le_of_not_lt h)]; linarith
  exact ⟨div_nonneg hg0 (le_of_lt hpos), (div_le_one hpos).mpr hgle⟩

theorem lerpRand_bounds {u : ℝ} {r : ℝ × ℝ} (hu0 : 0 ≤ u) (hu1 : u < 1)
    (hlo : r.1 ≤ r.2) : r.1 ≤ Lung.lerpRand u r ∧ Lung.lerpRand u r ≤ r.2 := by
  rw [Lung.lerpRand]
  constructor
  · have : 0 ≤ u * (r.2 - r.1) := mul_nonneg hu0 (by linarith)
    linarith
  · have : u * (r.2 - r.1) ≤ 1 * (r.2 - r.1) :=
      mul_le_mul_of_nonneg_right (le_of_lt hu1) (by linarith)
    linarith

/-- Every value of the breath envelope lies in `[0, max drawn amplitude]`. -/
theorem breathEnv_bounds {ia ea A : ℝ} (hia0 : 0 ≤ ia) (hiaA : ia ≤ A)
    (hea0 : 0 ≤ ea) (heaA : ea ≤ A) (nInsp nMid nExp nPause : ℕ) :
    ∀ v ∈ Lung.breathEnv ia ea nInsp nMid nExp nPause, 0 ≤ v ∧ v ≤ A := by
  intro v hv
  rw [Lung.breathEnv] at hv
  simp only [List.mem_map, List.mem_range] at hv
  obtain ⟨i, hi, rfl⟩ := hv
  have hA : (0 : ℝ) ≤ A := le_trans hia0 hiaA
  split_ifs with h1 h2
  · have hr := ratio_bounds (l := Lung.raisedCosine (max 1 (nInsp / 2)) ++
      (Lung.raisedCosine (max 1 (nInsp / 2))).reverse ++
      List.replicate (nInsp - (Lung.raisedCosine (max 1 (nInsp / 2)) ++
        (Lung.raisedCosine (max 1 (nInsp / 2))).reverse).length) 0)
      (fun u hu => (halfEnv_mem_bounds hu).1) i
    constructor
    · exact mul_nonneg hia0 hr.1
    · calc ia * _ ≤ ia * 1 := mul_le_mul_of_nonneg_left hr.2 hia0
        _ = ia := mul_one ia
        _ ≤ A := hiaA
  · have hr := ratio_bounds (l := Lung.raisedCosine (max 1 (nExp / 2)) ++
      (Lung.raisedCosine (max 1 (nExp / 2))).reverse ++
      List.replicate (nExp - (Lung.raisedCosine (max 1 (nExp / 2)) ++
        (Lung.raisedCosine (max 1 (nExp / 2))).reverse).length) 0)
      (fun u hu => (halfEnv_mem_bounds hu).1) (i - (nInsp + nMid))
    constructor
    · exact mul_nonneg hea0 hr.1
    · calc ea * _ ≤ ea * 1 := mul_le_mul_of_nonneg_left hr.2 hea0
        _ = ea := mul_one ea
        _ ≤ A := heaA
  · exact ⟨le_refl 0, hA⟩

/-- The envelope component of `oneCycleRandom` in closed form. -/
theorem oneCycleRandom_env (p : Lung.BreathParamsR) (o : RStream) (c : ℕ) :
    (Lung.oneCycleRandom p o c).env =
      Lung.breathEnv (Lung.lerpRand (o c) p.insp_amp_range)
        (Lung.lerpRand (o (c + 1)) p.exp_amp_range)
        (jsRound (p.fs * Lung.lerpRand (o (c + 2)) p.insp_dur_range)).toNat
        (jsRound (p.fs * Lung.lerpRand (o (c + 4)) p.mid_gap_range)).toNat
        (jsRound (p.fs * Lung.lerpRand (o (c + 3)) p.exp_dur_range)).toNat
        (jsRound (p.fs * Lung.lerpRand (o (c + 5)) p.post_pause_range)).toNat := rfl

/-- The envelope and waveform of one breath cycle are aligned 1:1. -/
theorem oneCycleRandom_env_length (p : Lung.BreathParamsR) (o : RStream)
    (c : ℕ) :
    (Lung.oneCycleRandom p o c).env.length = (Lung.oneCycleRandom p o c).y.length := by
  show (Lung.oneCycleRandom p o c).env.length =
    (List.map _ ((List.range _).map _)).length
  rw [oneCycleRandom_env, Lung.breathEnv]
  simp only [List.length_map, List.length_range]

/-- C8 (amended): the uterine-contraction envelope is a `[0,1]`-valued
sequence of the waveform's length; the breath-cycle envelope is nonnegative,
aligned 1:1 with its waveform segment, and bounded by the drawn amplitude
ceiling `A` of the configured ranges — which for the default ranges is `1.2`,
NOT `1`; see the counterexample. -/
theorem C8_envelope_bounds :
    (∀ (fuel total_len : ℕ) (fs : ℝ) (opts : Fpcg.UcOpts) (o : RStream)
      (c : ℕ) (res : Fpcg.FArr × Fpcg.FArr × List Fpcg.UcEvent × ℕ),
      Fpcg.ucRun fuel total_len fs opts o c = some res →
      res.1.len = total_len ∧ ∀ j, 0 ≤ res.1.val j ∧ res.1.val j ≤ 1) ∧
    (∀ (p : Lung.BreathParamsR) (o : RStream) (c : ℕ) (A : ℝ),
      (∀ i, 0 ≤ o i ∧ o i < 1) →
      0 ≤ p.insp_amp_range.1 → p.insp_amp_range.1 ≤ p.insp_amp_range.2 →
      p.insp_amp_range.2 ≤ A →
      0 ≤ p.exp_amp_range.1 → p.exp_amp_range.1 ≤ p.exp_amp_range.2 →
      p.exp_amp_range.2 ≤ A →
      (∀ v ∈ (Lung.oneCycleRandom p o c).env, 0 ≤ v ∧ v ≤ A) ∧
      (Lung.oneCycleRandom p o c).env.length =
        (Lung.oneCycleRandom p o c).y.length) := by
  constructor
  · intro fuel total_len fs opts o c res h
    exact ucRun_env_bounds res h
  · intro p o c A hr h1 h2 h3 h4 h5 h6
    refine ⟨?_, oneCycleRandom_env_length p o c⟩
    rw [oneCycleRandom_env]
    have hia := lerpRand_bounds (hr c).1 (hr c).2 h2
    have hea := lerpRand_bounds (hr (c + 1)).1 (hr (c + 1)).2 h5
    exact breathEnv_bounds (by linarith [hia.1]) (by linarith [hia.2])
      (by linarith [hea.1]) (by linarith [hea.2]) _ _ _ _

/-- Witness for C8 at concrete inputs (rate-zero UC run; default breath
parameters with ceiling `A = 1.2`). -/
theorem C8_envelope_bounds_witness :
    (∃ res, Fpcg.ucRun 1 50 1000 ⟨0, (30, 90), (0.3, 0.3), 0.45, (0.5, 20), 0.8⟩
        (fun _ => 1 / 2) 0 = some res ∧
      (res.1.len = 50 ∧ ∀ j, 0 ≤ res.1.val j ∧ res.1.val j ≤ 1)) ∧
    ((∀ i, 0 ≤ (fun _ : ℕ => (1 : ℝ) / 2) i ∧ (fun _ : ℕ => (1 : ℝ) / 2) i < 1) ∧
      (∀ v ∈ (Lung.oneCycleRandom (Lung.defaultBreath 1000) (fun _ => 1 / 2) 0).env,
        0 ≤ v ∧ v ≤ 1.2) ∧
      (Lung.oneCycleRandom (Lung.defaultBreath 1000) (fun _ => 1 / 2) 0).env.length =
        (Lung.oneCycleRandom (Lung.defaultBreath 1000) (fun _ => 1 / 2) 0).y.length) := by
  constructor
  · have hpz : ∀ (total : ℝ) (c : ℕ),
        Fpcg.poissonArrivals (fun _ : ℕ => (1 : ℝ) / 2) 0 total 1 0 c =
          some ([], c) := fun total c => by
      rw [Fpcg.poissonArrivals, if_neg (by norm_num)]
    have hsome : ∃ res, Fpcg.ucRun 1 50 1000
        ⟨0, (30, 90), (0.3, 0.3), 0.45, (0.5, 20), 0.8⟩
        (fun _ => 1 / 2) 0 = some res := by
      rw [Fpcg.ucRun]
      have h600 : (0 : ℝ) / 600 = 0 := by norm_num
      rw [h600, hpz]
      exact ⟨_, rfl⟩
    obtain ⟨res, hres⟩ := hsome
    exact ⟨res, hres, C8_envelope_bounds.1 1 50 1000 _ _ 0 res hres⟩
  · have hr : ∀ i, 0 ≤ (fun _ : ℕ => (1 : ℝ) / 2) i ∧
        (fun _ : ℕ => (1 : ℝ) / 2) i < 1 := fun i => by norm_num
    have := C8_envelope_bounds.2 (Lung.defaultBreath 1000) (fun _ => 1 / 2) 0 1.2
      hr (by norm_num [Lung.defaultBreath]) (by norm_num [Lung.defaultBreath])
      (by norm_num [Lung.defaultBreath]) (by norm_num [Lung.defaultBreath])
      (by norm_num [Lung.defaultBreath]) (by norm_num [Lung.defaultBreath])
    exact ⟨hr, this.1, this.2⟩

/-- The raised-cosine entry `i = 849` of the 850-sample half ramp. -/
theorem raisedCosine850_getD :
    (Lung.raisedCosine 850).getD 849 0 =
      0.5 * (1 - Real.cos (Real.pi * 849 / 850)) := by
  have hlen : (Lung.raisedCosine 850).length = 850 := by
    simp [Lung.raisedCosine]
  rw [List.getD_eq_getElem _ _ (by rw [hlen]; norm_num)]
  simp [Lung.raisedCosine]


/-- Every entry of the 850-sample half ramp is dominated by entry 849. -/
theorem raisedCosine850_le {v : ℝ} (hv : v ∈ Lung.raisedCosine 850) :
    v ≤ 0.5 * (1 - Real.cos (Real.pi * 849 / 850)) := by
  rw [Lung.raisedCosine] at hv
  simp only [List.mem_map, List.mem_range] at hv
  obtain ⟨i, hi, rfl⟩ := hv
  have hile : (i : ℝ) ≤ 849 := by
    have h' : i ≤ 849 := by omega
    exact_mod_cast h'
  have h : Real.cos (Real.pi * 849 / 850) ≤ Real.cos (Real.pi * i / 850) := by
    apply Real.cos_le_cos_of_nonneg_of_le_pi
    · positivity
    · nlinarith [Real.pi_pos]
    · nlinarith [Real.pi_pos]
  nlinarith

theorem raisedCosine850_big :
    (1 : ℝ) / 2 ≤ 0.5 * (1 - Real.cos (Real.pi * 849 / 850)) := by
  have hcosle : Real.cos (Real.pi * 849 / 850) ≤ 0 := by
    apply Real.cos_nonpos_of_pi_div_two_le_of_le
    · nlinarith [Real.pi_pos]
    · nlinarith [Real.pi_pos]
  nlinarith

/-- The fold maximum of the inspiration envelope list equals entry 849. -/
theorem raisedCosine850_max :
    maxD (Lung.raisedCosine 850 ++ (Lung.raisedCosine 850).reverse ++
        List.replicate 0 (0 : ℝ)) 1e-9 =
      0.5 * (1 - Real.cos (Real.pi * 849 / 850)) := by
  have hqmem : 0.5 * (1 - Real.cos (Real.pi * 849 / 850)) ∈
      Lung.raisedCosine 850 := by
    have hlen : (Lung.raisedCosine 850).length = 850 := by
      simp [Lung.raisedCosine]
    have h := raisedCosine850_getD
    rw [List.getD_eq_getElem _ _ (by rw [hlen]; norm_num)] at h
    rw [← h]
    exact List.getElem_mem _
  refine le_antisymm ?_ ?_
  · apply maxD_le
    · linarith [raisedCosine850_big]
    · intro v hv
      rw [List.replicate_zero, List.append_nil] at hv
      rcases List.mem_append.mp hv with h' | h'
      · exact raisedCosine850_le h'
      · exact raisedCosine850_le (List.mem_reverse.mp h')
  · apply le_maxD_of_mem
    rw [List.replicate_zero, List.append_nil]
    exact List.mem_append_left _ hqmem

/-- Entry 849 of the concrete breath envelope equals the drawn inspiration
amplitude `1.05`. -/
theorem breathEnv_entry849 :
    (Lung.breathEnv 1.05 0.9 1700 350 2000 2000).getD 849 0 = 1.05 := by
  have hlen : (Lung.raisedCosine 850).length = 850 := by
    simp [Lung.raisedCosine]
  have hlenL : (Lung.raisedCosine 850 ++ (Lung.raisedCosine 850).reverse).length
      = 1700 := by
    rw [List.length_append, List.length_reverse, hlen]
  rw [Lung.breathEnv]
  rw [List.getD_eq_getElem _ _ (by
    simp only [List.length_map, List.length_range]
    norm_num)]
  rw [List.getElem_map, List.getElem_range]
  show (if 849 < 1700 then
      (1.05 : ℝ) *
        ((Lung.raisedCosine (max 1 (1700 / 2)) ++ (Lung.raisedCosine (max 1 (1700 / 2))).reverse ++
          List.replicate (1700 - (Lung.raisedCosine (max 1 (1700 / 2)) ++
            (Lung.raisedCosine (max 1 (1700 / 2))).reverse).length) 0).getD 849 0 /
          maxD (Lung.raisedCosine (max 1 (1700 / 2)) ++ (Lung.raisedCosine (max 1 (1700 / 2))).reverse ++
            List.replicate (1700 - (Lung.raisedCosine (max 1 (1700 / 2)) ++
              (Lung.raisedCosine (max 1 (1700 / 2))).reverse).length) 0) 1e-9)
    else if 1700 + 350 ≤ 849 ∧ 849 < 1700 + 350 + 2000 then
      (0.9 : ℝ) *
        ((Lung.raisedCosine (max 1 (2000 / 2)) ++ (Lung.raisedCosine (max 1 (2000 / 2))).reverse ++
          List.replicate (2000 - (Lung.raisedCosine (max 1 (2000 / 2)) ++
            (Lung.raisedCosine (max 1 (2000 / 2))).reverse).length) 0).getD (849 - (1700 + 350)) 0 /
          maxD (Lung.raisedCosine (max 1 (2000 / 2)) ++ (Lung.raisedCosine (max 1 (2000 / 2))).reverse ++
            List.replicate (2000 - (Lung.raisedCosine (max 1 (2000 / 2)) ++
              (Lung.raisedCosine (max 1 (2000 / 2))).reverse).length) 0) 1e-9)
    else 0) = 1.05
  rw [if_pos (by norm_num : (849 : ℕ) < 1700)]
  have hhalf : max 1 (1700 / 2) = (850 : ℕ) := by norm_num
  rw [hhalf]
  rw [hlenL]
  have hpad : (1700 : ℕ) - 1700 = 0 := by norm_num
  rw [hpad, raisedCosine850_max]
  have hgd : (Lung.raisedCosine 850 ++ (Lung.raisedCosine 850).reverse ++
      List.replicate 0 (0 : ℝ)).getD 849 0 =
      0.5 * (1 - Real.cos (Real.pi * 849 / 850)) := by
    rw [List.replicate_zero, List.append_nil]
    have h849 : (849 : ℕ) < (Lung.raisedCosine 850).length := by
      rw [hlen]; norm_num
    rw [List.getD_eq_getElem _ _ (by rw [hlenL]; norm_num)]
    rw [List.getElem_append_left h849]
    have h := raisedCosine850_getD
    rw [List.getD_eq_getElem _ _ h849] at h
    exact h
  rw [hgd, div_self (by linarith [raisedCosine850_big]), mul_one]

/-- C8 counterexample: with defaulted breath parameters and uniform draws
`1/2`, the drawn inspiration amplitude is `0.9 + 0.5·(1.2-0.9) = 1.05` and
the envelope attains it: the breath envelope is NOT contained in `[0,1]`. -/
theorem C8_counterexample :
    1 < (Lung.oneCycleRandom (Lung.defaultBreath 1000)
      (fun _ => 1 / 2) 0).env.getD 849 0 := by
  rw [oneCycleRandom_env]
  have hargs : Lung.breathEnv
      (Lung.lerpRand ((fun _ : ℕ => (1 : ℝ) / 2) 0) (Lung.defaultBreath 1000).insp_amp_range)
      (Lung.lerpRand ((fun _ : ℕ => (1 : ℝ) / 2) (0 + 1)) (Lung.defaultBreath 1000).exp_amp_range)
      (jsRound ((Lung.defaultBreath 1000).fs *
        Lung.lerpRand ((fun _ : ℕ => (1 : ℝ) / 2) (0 + 2)) (Lung.defaultBreath 1000).insp_dur_range)).toNat
      (jsRound ((Lung.defaultBreath 1000).fs *
        Lung.lerpRand ((fun _ : ℕ => (1 : ℝ) / 2) (0 + 4)) (Lung.defaultBreath 1000).mid_gap_range)).toNat
      (jsRound ((Lung.defaultBreath 1000).fs *
        Lung.lerpRand ((fun _ : ℕ => (1 : ℝ) / 2) (0 + 3)) (Lung.defaultBreath 1000).exp_dur_range)).toNat
      (jsRound ((Lung.defaultBreath 1000).fs *
        Lung.lerpRand ((fun _ : ℕ => (1 : ℝ) / 2) (0 + 5)) (Lung.defaultBreath 1000).post_pause_range)).toNat
      = Lung.breathEnv 1.05 0.9 1700 350 2000 2000 := by
    have h1 : (jsRound (1700 : ℝ)).toNat = 1700 := by
      rw [jsRound]
      norm_num
      rfl
    have h2 : (jsRound (350 : ℝ)).toNat = 350 := by
      rw [jsRound]
      norm_num
      rfl
    have h3 : (jsRound (2000 : ℝ)).toNat = 2000 := by
      rw [jsRound]
      norm_num
      rfl
    norm_num [Lung.lerpRand, Lung.defaultBreath]
    rw [h1, h2, h3]
  rw [hargs, breathEnv_entry849]
  norm_num

/-! ### Claim C10: weak-signal handling in simulateMultibeat -/

/-- The spec-side per-beat processing: synthesise, add SNR noise, apply the
weak-signal ×100 correction, peak-normalise to 0.95. -/
def specBeatsLoop (fs bls : ℝ) (params : Pcg.PCGParams)
    (abn : Option Pcg.Abnormal) (snr : ℝ) (o : RStream) :
    ℕ → ℕ → List (List ℝ) × ℕ
  | 0, c => ([], c)
  | k + 1, c =>
    let sb := Pcg.simulateSingleBeat fs bls params abn o c
    let pr := Pcg.addNoiseSNR sb.beat snr fs o sb.cur
    let rest := specBeatsLoop fs bls params abn snr o k pr.2
    (peakNormalize 0.95 (weakAmplify pr.1) :: rest.1, rest.2)

theorem multibeatLoop_beats (fs bls : ℝ) (params : Pcg.PCGParams)
    (abn : Option Pcg.Abnormal) (snr : ℝ) (o : RStream) :
    ∀ (k b : ℕ) (st : Pcg.MBState),
      (Pcg.multibeatLoop fs bls params abn snr o k b st).beats =
        st.beats ++ (specBeatsLoop fs bls params abn snr o k st.cur).1 := by
  intro k
  induction k with
  | zero => intro b st; simp [Pcg.multibeatLoop, specBeatsLoop]
  | succ n ih =>
    intro b st
    rw [Pcg.multibeatLoop, specBeatsLoop]
    rw [ih]
    simp only [weakAmplify, peakNormalize, List.append_assoc, List.cons_append,
      List.nil_append]

/-- C10: every per-beat signal whose post-noise peak is below `1e-6` is
corrected by a ×100 amplification before the 0.95 peak-normalisation, and a
near-zero concatenated result is further amplified ×10; the function always
returns this composition — the weak-signal condition is never turned into a
failure. -/
theorem C10_weak_signal (numBeats : ℕ) (fs bls : ℝ) (params : Pcg.PCGParams)
    (abn : Option Pcg.Abnormal) (snr : ℝ) (o : RStream) (c : ℕ) :
    (Pcg.simulateMultibeat numBeats fs bls params abn snr o c).pcg =
      finalAmplifyWeak
        ((specBeatsLoop fs bls params abn snr o numBeats c).1.flatten) := by
  rw [Pcg.simulateMultibeat, finalAmplifyWeak]
  rw [multibeatLoop_beats]
  simp only [List.nil_append]

/-! ### Claim C2 (amended part): amplitude bounds of the normalising pipelines -/

theorem abs_getD_le_of_all {y : List ℝ} {M : ℝ} (hM : 0 ≤ M)
    (hy : ∀ v ∈ y, |v| ≤ M) (j : ℕ) : |y.getD j 0| ≤ M := by
  by_cases h : j < y.length
  · rw [List.getD_eq_getElem y 0 h]
    exact hy _ (List.getElem_mem h)
  · rw [List.getD_eq_default _ _ (le_of_not_lt h)]
    simpa using hM

theorem multibeatLoop_bounded (fs bls : ℝ) (params : Pcg.PCGParams)
    (abn : Option Pcg.Abnormal) (snr : ℝ) (o : RStream) :
    ∀ (k b : ℕ) (st : Pcg.MBState),
      (∀ l ∈ st.beats, ∀ v ∈ l, |v| ≤ 0.95) →
      ∀ l ∈ (Pcg.multibeatLoop fs bls params abn snr o k b st).beats,
        ∀ v ∈ l, |v| ≤ 0.95 := by
  intro k
  induction k with
  | zero => intro b st h; exact h
  | succ n ih =>
    intro b st h
    rw [Pcg.multibeatLoop]
    apply ih
    intro l hl v hv
    rcases List.mem_append.mp hl with h' | h'
    · exact h l h' v hv
    · rw [List.mem_singleton] at h'
      subst h'
      simp only [List.mem_map] at hv
      obtain ⟨u, hu, rfl⟩ := hv
      exact abs_normalized_le hu 0.95 1e-8 (by norm_num) (by norm_num)

theorem simulateMultibeat_bounded (numBeats : ℕ) (fs bls : ℝ)
    (params : Pcg.PCGParams) (abn : Option Pcg.Abnormal) (snr : ℝ)
    (o : RStream) (c : ℕ) :
    ∀ v ∈ (Pcg.simulateMultibeat numBeats fs bls params abn snr o c).pcg,
      |v| ≤ 0.95 := by
  intro v hv
  rw [Pcg.simulateMultibeat] at hv
  have hflat : ∀ u ∈ (Pcg.multibeatLoop fs bls params abn snr o numBeats 0
      ⟨[], [], [], c⟩).beats.flatten, |u| ≤ 0.95 := by
    intro u hu
    rw [List.mem_flatten] at hu
    obtain ⟨l, hl, hul⟩ := hu
    exact multibeatLoop_bounded fs bls params abn snr o numBeats 0 _
      (by intro l' hl'; cases hl') l hl u hul
  by_cases hweak : (Pcg.multibeatLoop fs bls params abn snr o numBeats 0
      ⟨[], [], [], c⟩).beats.flatten.length = 0 ∨
      maxAbsD (Pcg.multibeatLoop fs bls params abn snr o numBeats 0
        ⟨[], [], [], c⟩).beats.flatten 0 < 0.01
  · rw [if_pos hweak] at hv
    simp only [List.mem_map] at hv
    obtain ⟨u, hu, rfl⟩ := hv
    rcases hweak with h0 | hsmall
    · rw [List.length_eq_zero] at h0
      rw [h0] at hu
      cases hu
    · have : |u| ≤ maxAbsD (Pcg.multibeatLoop fs bls params abn snr o numBeats 0
          ⟨[], [], [], c⟩).beats.flatten 0 := le_maxAbsD_of_mem _ hu
      rw [abs_mul]
      have : |u| < 0.01 := lt_of_le_of_lt this hsmall
      calc |u| * |(10 : ℝ)| = |u| * 10 := by norm_num
        _ ≤ 0.01 * 10 := by nlinarith [abs_nonneg u]
        _ ≤ 0.95 := by norm_num
  · rw [if_neg hweak] at hv
    exact hflat v hv

/-- Interpolated resampling preserves a uniform bound (pcg.ts version). -/
theorem resampleToLength_bounded {y : List ℝ} {M : ℝ} (hM : 0 ≤ M)
    (hy : ∀ v ∈ y, |v| ≤ M) (t : List ℝ) (L : ℤ) :
    ∀ v ∈ Pcg.resampleToLength t y L, |v| ≤ M := by
  intro v hv
  rw [Pcg.resampleToLength] at hv
  split_ifs at hv with h1 h2
  · exact hy v hv
  · cases hv
  · simp only [List.mem_map, List.mem_range] at hv
    obtain ⟨i, hi, rfl⟩ := hv
    refine abs_convex_le (abs_getD_le_of_all hM hy _)
      (abs_getD_le_of_all hM hy _) ?_ ?_
    · exact sub_nonneg.mpr (Int.floor_le _)
    · linarith [Int.lt_floor_add_one ((i : ℝ) * ((y.length : ℝ) - 1) /
        max 1 ((L : ℝ) - 1))]

/-- Interpolated resampling preserves a uniform bound (lung `resampleTo`). -/
theorem resampleTo_bounded {y : List ℝ} {M : ℝ} (hM : 0 ≤ M)
    (hy : ∀ v ∈ y, |v| ≤ M) (L : ℤ) (r : List ℝ)
    (h : Lung.resampleTo y L = some r) : ∀ v ∈ r, |v| ≤ M := by
  intro v hv
  rw [Lung.resampleTo] at h
  split_ifs at h with h1 h2
  · rw [Option.some.injEq] at h; subst h; exact hy v hv
  · rw [Option.some.injEq] at h
    subst h
    simp only [List.mem_map, List.mem_range] at hv
    obtain ⟨i, hi, rfl⟩ := hv
    refine abs_convex_le (abs_getD_le_of_all hM hy _)
      (abs_getD_le_of_all hM hy _) ?_ ?_
    · exact sub_nonneg.mpr (Int.floor_le _)
    · linarith [Int.lt_floor_add_one ((i : ℝ) * ((y.length : ℝ) - 1) /
        max 1 ((L : ℝ) - 1))]

theorem lungAddNoise_bounded (sig : List ℝ) (fs snrDb : ℝ) (seed : ℕ)
    (mix band : ℝ × ℝ) :
    ∀ v ∈ Lung.addNoiseSNR sig fs snrDb seed mix band, |v| ≤ 0.95 := by
  intro v hv
  rw [Lung.addNoiseSNR] at hv
  rcases List.mem_map.mp hv with ⟨u, hu, rfl⟩
  exact abs_normalized_le hu 0.95 1e-9 (by norm_num) (by norm_num)

/-- C2 (amended): the heart pipeline (per-beat 0.95 peak-normalisation,
weak-signal corrections included, then resampling) and the normal-lung
pipeline (final 0.95 peak-normalisation, then resampling) return samples of
magnitude at most 0.95; the fPCG pipeline has no such normalisation and can
exceed 1 (see the counterexample). -/
theorem C2_amplitude_bound :
    (∀ (cycles : ℕ) (fs : ℝ) (abn : Option Pcg.Abnormal) (amb : RStream)
      (count : ℤ) (i : ℕ),
      |(Pcg.resampleToLength (Pcg.simulateHeartDataset cycles fs abn amb).1
        (Pcg.simulateHeartDataset cycles fs abn amb).2 count).getD i 0| ≤ 0.95) ∧
    (∀ (count : ℤ) (cycles : ℝ) (i : ℕ),
      |((Lung.genNormalLungSignal count cycles).getD []).getD i 0| ≤ 0.95) := by
  constructor
  · intro cycles fs abn amb count i
    apply abs_getD_le_of_all (by norm_num)
    apply resampleToLength_bounded (by norm_num)
    show ∀ v ∈ (Pcg.simulateMultibeat cycles fs 1.2 Pcg.defaultParams abn 6
      (seededRandomStream 2025) 0).pcg, |v| ≤ 0.95
    exact simulateMultibeat_bounded cycles fs 1.2 Pcg.defaultParams abn 6
      (seededRandomStream 2025) 0
  · intro count cycles i
    apply abs_getD_le_of_all (by norm_num)
    rw [Lung.genNormalLungSignal]
    cases hres : Lung.resampleTo (Lung.addNoiseSNR
        (Lung.synthBreathRandomCycles 1000 (max 1 ⌊cycles⌋).toNat 2025).y
        1000 12 2025 (0.2, 0.8) (80, 3000)) count with
    | none => intro v hv; cases hv
    | some r =>
      simp only [Option.getD_some]
      exact resampleTo_bounded (by norm_num)
        (lungAddNoise_bounded _ _ _ _ _ _) count r hres

/-! ### Claim C6: SNR scaling of addNoiseSNR (pcg.ts) -/

theorem meanSq_nonneg (l : List ℝ) : 0 ≤ meanSq l := by
  rw [meanSq]
  apply div_nonneg
  · apply List.sum_nonneg
    intro v hv
    rcases List.mem_map.mp hv with ⟨u, _, rfl⟩
    positivity
  · positivity

theorem sumSq_map_mul (l : List ℝ) (s : ℝ) :
    (((l.map fun v => v * s).map fun v => v ^ 2)).sum =
      s ^ 2 * ((l.map fun v => v ^ 2).sum) := by
  induction l with
  | nil => simp
  | cons x xs ih =>
    simp only [List.map_cons, List.sum_cons, ih]
    ring

theorem meanSq_map_mul (l : List ℝ) (s : ℝ) :
    meanSq (l.map fun v => v * s) = s ^ 2 * meanSq l := by
  rw [meanSq, meanSq, List.length_map, sumSq_map_mul, mul_div_assoc]

theorem zipWith_add_sub (s : ℝ) :
    ∀ x f : List ℝ,
      List.zipWith (fun r xi => r - xi)
        (List.zipWith (fun xi fi => xi + fi * s) x f) x =
      List.zipWith (fun _ fi => fi * s) x f := by
  intro x
  induction x with
  | nil => intro f; rfl
  | cons a as ih =>
    intro f
    cases f with
    | nil => rfl
    | cons b bs =>
      simp only [List.zipWith_cons_cons, ih]
      congr 1
      ring

theorem zipWith_snd_map (s : ℝ) :
    ∀ x f : List ℝ, x.length = f.length →
      List.zipWith (fun _ fi => fi * s) x f = f.map fun v => v * s := by
  intro x
  induction x with
  | nil =>
    intro f hf
    cases f with
    | nil => rfl
    | cons b bs => cases hf
  | cons a as ih =>
    intro f hf
    cases f with
    | nil => cases hf
    | cons b bs =>
      simp only [List.zipWith_cons_cons, List.map_cons]
      rw [ih bs (by simpa using hf)]

theorem gaussList_length (o : RStream) : ∀ n c, (gaussList o n c).1.length = n := by
  intro n
  induction n with
  | zero => intro c; rfl
  | succ k ih => intro c; simp [gaussList, ih]

/-- The `1e-8` fudge terms of the noise normalisation shift the achieved
noise power from its target by at most a relative `1e-3` over a wide
mean-square range. -/
theorem snr_ratio_close {ms : ℝ} (h1 : 1e-4 ≤ ms) (h2 : ms ≤ 1e4) :
    |ms / (Real.sqrt (ms + 1e-8) + 1e-8) ^ 2 - 1| ≤ 1e-3 := by
  set s := Real.sqrt (ms + 1e-8) with hs
  have hs0 : 0 < s := Real.sqrt_pos.mpr (by linarith)
  have hs2 : s ^ 2 = ms + 1e-8 := Real.sq_sqrt (by linarith)
  have hslo : 0.01 ≤ s := by nlinarith
  have hden : (0 : ℝ) < (s + 1e-8) ^ 2 := by positivity
  rw [abs_le]
  constructor
  · have key : (1 - 1e-3) * (s + 1e-8) ^ 2 ≤ ms := by
      nlinarith [mul_nonneg (sub_nonneg.mpr hslo) (le_of_lt hs0)]
    have hq : 1 - 1e-3 ≤ ms / (s + 1e-8) ^ 2 := (le_div_iff₀ hden).mpr key
    linarith
  · have hle : ms / (s + 1e-8) ^ 2 ≤ 1 := by
      rw [div_le_one hden]
      nlinarith
    linarith

/-- C6: the noise that `addNoiseSNR` adds to the signal (the pointwise
difference between its output and its input) has mean-square power equal
to the target `meanSq x / 10^(snrDb/10)` up to a relative error of at
most `1e-3`, whenever the filtered seed noise has mean square in
`[1e-4, 1e4]`.  The small deviation comes from the `1e-8` regularisation
terms in the normalisation. -/
theorem C6_snr_scaling (x : List ℝ) (snrDb fs : ℝ) (o : RStream) (c : ℕ)
    (hms1 : 1e-4 ≤ meanSq (Pcg.lowpassFilter (gaussList o x.length c).1 fs 100 4))
    (hms2 : meanSq (Pcg.lowpassFilter (gaussList o x.length c).1 fs 100 4) ≤ 1e4) :
    |meanSq (List.zipWith (fun r xi => r - xi) (Pcg.addNoiseSNR x snrDb fs o c).1 x)
        - meanSq x / Real.rpow 10 (snrDb / 10)| ≤
      1e-3 * (meanSq x / Real.rpow 10 (snrDb / 10)) := by
  set ms := meanSq (Pcg.lowpassFilter (gaussList o x.length c).1 fs 100 4) with hmsdef
  set D := Real.sqrt (ms + 1e-8) + 1e-8 with hD
  set pN := meanSq x / Real.rpow 10 (snrDb / 10) with hpN
  have hpN0 : 0 ≤ pN :=
    div_nonneg (meanSq_nonneg x) (Real.rpow_nonneg (by norm_num) _)
  have hlen : x.length =
      ((Pcg.lowpassFilter (gaussList o x.length c).1 fs 100 4).map
        fun v => v / D).length := by
    rw [List.length_map, lowpassFilter_length, gaussList_length]
  have hdiff :
      List.zipWith (fun r xi => r - xi) (Pcg.addNoiseSNR x snrDb fs o c).1 x =
        (((Pcg.lowpassFilter (gaussList o x.length c).1 fs 100 4).map
          fun v => v / D).map fun v => v * Real.sqrt pN) := by
    show List.zipWith (fun r xi => r - xi)
        (List.zipWith (fun xi fi => xi + fi * Real.sqrt pN) x
          ((Pcg.lowpassFilter (gaussList o x.length c).1 fs 100 4).map
            fun v => v / D)) x = _
    rw [zipWith_add_sub, zipWith_snd_map _ _ _ hlen]
  rw [hdiff, meanSq_map_mul]
  have hmap2 :
      ((Pcg.lowpassFilter (gaussList o x.length c).1 fs 100 4).map
        fun v => v / D) =
      ((Pcg.lowpassFilter (gaussList o x.length c).1 fs 100 4).map
        fun v => v * D⁻¹) := by
    simp [div_eq_mul_inv]
  rw [hmap2, meanSq_map_mul, Real.sq_sqrt hpN0]
  have hrw : pN * (D⁻¹ ^ 2 * ms) = pN * (ms / D ^ 2) := by
    rw [inv_pow, div_eq_mul_inv, mul_comm ms]
  rw [hrw]
  have hr : |ms / D ^ 2 - 1| ≤ 1e-3 := snr_ratio_close hms1 hms2
  calc |pN * (ms / D ^ 2) - pN|
      = pN * |ms / D ^ 2 - 1| := by
        rw [show pN * (ms / D ^ 2) - pN = pN * (ms / D ^ 2 - 1) by ring,
          abs_mul, abs_of_nonneg hpN0]
    _ ≤ pN * 1e-3 := mul_le_mul_of_nonneg_left hr hpN0
    _ = 1e-3 * pN := mul_comm _ _

/-- Concrete oracle for the C6 witness: the first gaussian is zero
(second uniform `1/4`), the second is `-sqrt(12600 ln 2)` (first uniform
`2^-6300`, second `1/2`). -/
def oC6 : RStream := fun i =>
  if i = 1 then 1 / 4 else if i = 2 then (2 : ℝ) ^ (-6300 : ℤ) else 1 / 2

theorem onePoleL_pair (a p q : ℝ) :
    Pcg.onePoleL a [p, q] = [0, (1 - a) * q] := by
  simp [Pcg.onePoleL, Pcg.onePoleAux]

theorem onePoleL_iter4_pair (a p q : ℝ) :
    (Pcg.onePoleL a)^[4] [p, q] = [0, (1 - a) ^ 4 * q] := by
  have h : (Pcg.onePoleL a)^[4] [p, q] =
      Pcg.onePoleL a (Pcg.onePoleL a (Pcg.onePoleL a (Pcg.onePoleL a [p, q]))) := rfl
  rw [h, onePoleL_pair, onePoleL_pair, onePoleL_pair, onePoleL_pair]
  have h2 : (1 - a) * ((1 - a) * ((1 - a) * ((1 - a) * q))) = (1 - a) ^ 4 * q := by
    ring
  rw [h2]

theorem oC6_gauss :
    gaussList oC6 2 0 = ([0, -Real.sqrt (12600 * Real.log 2)], 4) := by
  have h0 : gaussianDraw oC6 0 = (0, 2) :=
    gaussianDraw_quarter (by norm_num [oC6]) (by norm_num [oC6])
  have h2v : oC6 2 = (2 : ℝ) ^ (-6300 : ℤ) := by norm_num [oC6]
  have h3v : oC6 3 = 1 / 2 := by norm_num [oC6]
  have h2 : gaussianDraw oC6 2 = (-Real.sqrt (12600 * Real.log 2), 4) := by
    rw [gaussianDraw_eval (by rw [h2v]; exact zpow_ne_zero _ (by norm_num))
      (by show oC6 3 ≠ 0; rw [h3v]; norm_num)]
    rw [show (2 : ℕ) + 1 = 3 from rfl, h2v, h3v, Real.log_zpow]
    rw [show -2 * ((-6300 : ℤ) * Real.log 2) = 12600 * Real.log 2 by push_cast; ring]
    rw [show 2 * Real.pi * (1 / 2 : ℝ) = Real.pi by ring, Real.cos_pi, mul_neg_one]
  have hstep : gaussList oC6 2 0 =
      ((gaussianDraw oC6 0).1 :: (gaussList oC6 1 (gaussianDraw oC6 0).2).1,
        (gaussList oC6 1 (gaussianDraw oC6 0).2).2) := rfl
  have hstep1 : gaussList oC6 1 2 =
      ((gaussianDraw oC6 2).1 :: [], (gaussianDraw oC6 2).2) := rfl
  rw [hstep, h0]
  simp only
  rw [hstep1, h2]

theorem oC6_filtered :
    Pcg.lowpassFilter [0, -Real.sqrt (12600 * Real.log 2)] 4000 100 4 =
      [0, (1 - Real.exp (-(Real.pi / 20))) ^ 4 *
        (-Real.sqrt (12600 * Real.log 2))] := by
  show (Pcg.onePoleL
      (Real.exp (-2 * Real.pi * min (100 : ℝ) ((4000 : ℝ) / 2 - 1) / 4000)))^[4]
      [0, -Real.sqrt (12600 * Real.log 2)] = _
  rw [min_eq_left (by norm_num : (100 : ℝ) ≤ (4000 : ℝ) / 2 - 1)]
  rw [show (-2 * Real.pi * 100 / 4000 : ℝ) = -(Real.pi / 20) by ring]
  rw [onePoleL_iter4_pair]

theorem oC6_ms :
    meanSq (Pcg.lowpassFilter (gaussList oC6 ([(1 : ℝ), 0]).length 0).1 4000 100 4)
      = (1 - Real.exp (-(Real.pi / 20))) ^ 8 * (6300 * Real.log 2) := by
  have hlen : ([(1 : ℝ), 0]).length = 2 := rfl
  rw [hlen, oC6_gauss]
  show meanSq (Pcg.lowpassFilter [0, -Real.sqrt (12600 * Real.log 2)] 4000 100 4) = _
  rw [oC6_filtered, meanSq]
  have hS : Real.sqrt (12600 * Real.log 2) ^ 2 = 12600 * Real.log 2 :=
    Real.sq_sqrt (mul_nonneg (by norm_num) (Real.log_nonneg one_le_two))
  simp only [List.map_cons, List.map_nil, List.sum_cons, List.sum_nil,
    List.length_cons, List.length_nil]
  rw [show ((1 - Real.exp (-(Real.pi / 20))) ^ 4 *
      (-Real.sqrt (12600 * Real.log 2))) ^ 2 =
      (1 - Real.exp (-(Real.pi / 20))) ^ 8 *
        Real.sqrt (12600 * Real.log 2) ^ 2 by ring, hS]
  norm_num
  ring

theorem exp_neg_le_one_div (x : ℝ) (hx : 0 < x) :
    Real.exp (-x) ≤ 1 / (1 + x) := by
  have h := Real.add_one_le_exp x
  have h1x : (0 : ℝ) < 1 + x := by linarith
  rw [Real.exp_neg, ← one_div]
  exact one_div_le_one_div_of_le h1x (by linarith)

theorem oC6_oneSubA_lo :
    (0.1356 : ℝ) ≤ 1 - Real.exp (-(Real.pi / 20)) := by
  have hle := exp_neg_le_one_div (Real.pi / 20) (by positivity)
  have hpi : 3.14 < Real.pi := Real.pi_gt_d2
  have h2 : 1 / (1 + Real.pi / 20) ≤ 1 / 1.157 :=
    one_div_le_one_div_of_le (by norm_num) (by linarith)
  have h3 : (1 : ℝ) / 1.157 ≤ 0.8644 := by norm_num
  linarith

theorem oC6_hms1 :
    1e-4 ≤ meanSq
      (Pcg.lowpassFilter (gaussList oC6 ([(1 : ℝ), 0]).length 0).1 4000 100 4) := by
  rw [oC6_ms]
  have hlog : (0.6931471803 : ℝ) < Real.log 2 := Real.log_two_gt_d9
  have hlo := oC6_oneSubA_lo
  have hp : (0.1356 : ℝ) ^ 8 ≤ (1 - Real.exp (-(Real.pi / 20))) ^ 8 :=
    pow_le_pow_left₀ (by norm_num) hlo 8
  have hY : (4366 : ℝ) ≤ 6300 * Real.log 2 := by nlinarith
  calc (1e-4 : ℝ) ≤ (0.1356 : ℝ) ^ 8 * 4366 := by norm_num
    _ ≤ (1 - Real.exp (-(Real.pi / 20))) ^ 8 * (6300 * Real.log 2) :=
        mul_le_mul hp hY (by norm_num) (le_trans (by positivity) hp)

theorem oC6_hms2 :
    meanSq
      (Pcg.lowpassFilter (gaussList oC6 ([(1 : ℝ), 0]).length 0).1 4000 100 4)
      ≤ 1e4 := by
  rw [oC6_ms]
  have hlt : Real.log 2 < 0.6931471808 := Real.log_two_lt_d9
  have hlog0 : (0 : ℝ) ≤ Real.log 2 := Real.log_nonneg one_le_two
  have h1a : 1 - Real.exp (-(Real.pi / 20)) ≤ 1 := by
    have := Real.exp_pos (-(Real.pi / 20)); linarith
  have h0a : (0 : ℝ) ≤ 1 - Real.exp (-(Real.pi / 20)) := by
    linarith [oC6_oneSubA_lo]
  have hp1 : (1 - Real.exp (-(Real.pi / 20))) ^ 8 ≤ 1 := pow_le_one₀ h0a h1a
  calc (1 - Real.exp (-(Real.pi / 20))) ^ 8 * (6300 * Real.log 2)
      ≤ 1 * (6300 * Real.log 2) :=
        mul_le_mul_of_nonneg_right hp1 (by nlinarith)
    _ ≤ 1e4 := by nlinarith

theorem C6_snr_scaling_witness :
    (1e-4 ≤ meanSq
      (Pcg.lowpassFilter (gaussList oC6 ([(1 : ℝ), 0]).length 0).1 4000 100 4)) ∧
    (meanSq
      (Pcg.lowpassFilter (gaussList oC6 ([(1 : ℝ), 0]).length 0).1 4000 100 4)
      ≤ 1e4) ∧
    |meanSq (List.zipWith (fun r xi => r - xi)
        (Pcg.addNoiseSNR [(1 : ℝ), 0] 0 4000 oC6 0).1 [(1 : ℝ), 0])
        - meanSq [(1 : ℝ), 0] / Real.rpow 10 (0 / 10)| ≤
      1e-3 * (meanSq [(1 : ℝ), 0] / Real.rpow 10 (0 / 10)) :=
  ⟨oC6_hms1, oC6_hms2, C6_snr_scaling [(1 : ℝ), 0] 0 4000 oC6 0 oC6_hms1 oC6_hms2⟩

/-! ### Claim C4: clamping of `pointCount` / `cycles` at the entry points -/

/-- With movement and uterine-contraction synthesis disabled (as in
`genFhsNormal`), `simulateFpcgDataset` always returns a result: the only
`none` paths are the event-sampling loops of the two disabled features. -/
theorem simulateFpcg_disabled_isSome (fuel : ℕ) (opts : Fpcg.SimOptions)
    (o : RStream) (hm : opts.movement_enabled = false)
    (hu : opts.uc_enabled = false) :
    (Fpcg.simulateFpcgDataset fuel opts o).isSome := by
  simp [Fpcg.simulateFpcgDataset, hm, hu]

/-- C4 counterexample: a negative `pointCount` is NOT clamped upward.
`genFhsNormal(-1, 4)` reaches `resampleToLength` with `targetLen = -1`,
whose `new Array(-1)` allocation throws a `RangeError` in JavaScript
(modelled as `none`); the call does not return normally. -/
theorem C4_counterexample :
    Fpcg.genFhsNormal 0 (-1) 4 (fun _ => 1 / 2) = none := by
  have h := simulateFpcg_disabled_isSome 0 (Fpcg.genFhsNormalOpts 4)
    (fun _ => 1 / 2) rfl rfl
  rw [Option.isSome_iff_exists] at h
  obtain ⟨out, hout⟩ := h
  rw [Fpcg.genFhsNormal, hout]
  have hne : ((out.y.toList.length : ℤ)) ≠ -1 := by
    have := Int.natCast_nonneg out.y.toList.length
    omega
  simp only [Fpcg.resampleToLength]
  rw [if_neg hne, if_pos (by norm_num : (-1 : ℤ) < 0)]

/-- C4 (amended): the `cycles` argument is indeed clamped upward
(`Math.max(1, Math.floor(cycles))`), and for every `pointCount ≥ 1` the
entry point returns normally with exactly `pointCount` samples.  The
original claim is false only for negative `pointCount`, which is passed
unclamped to `new Array(targetLen)` and throws. -/
theorem C4_clamped_entry (fuel : ℕ) (count : ℤ) (cycles : ℝ) (o : RStream)
    (hc : 1 ≤ count) :
    1 ≤ (Fpcg.genFhsNormalOpts cycles).cycles_per_sample ∧
    ∃ ys, Fpcg.genFhsNormal fuel count cycles o = some ys ∧
      (ys.length : ℤ) = count := by
  constructor
  · show 1 ≤ (max 1 ⌊cycles⌋).toNat
    have h := le_max_left 1 ⌊cycles⌋
    omega
  · have h := simulateFpcg_disabled_isSome fuel (Fpcg.genFhsNormalOpts cycles)
      o rfl rfl
    rw [Option.isSome_iff_exists] at h
    obtain ⟨out, hout⟩ := h
    rw [Fpcg.genFhsNormal, hout]
    simp only [Fpcg.resampleToLength]
    by_cases heq : ((out.y.toList.length : ℤ)) = count
    · rw [if_pos heq]
      exact ⟨out.y.toList, rfl, heq⟩
    · rw [if_neg heq, if_neg (by omega : ¬ count < 0)]
      refine ⟨_, rfl, ?_⟩
      rw [List.length_map, List.length_range, Int.toNat_of_nonneg (by omega)]

theorem C4_clamped_entry_witness :
    (1 : ℤ) ≤ 5 ∧
    (1 ≤ (Fpcg.genFhsNormalOpts 1).cycles_per_sample ∧
      ∃ ys, Fpcg.genFhsNormal 0 5 1 (fun _ => 1 / 2) = some ys ∧
        (ys.length : ℤ) = 5) :=
  ⟨by norm_num, C4_clamped_entry 0 5 1 (fun _ => 1 / 2) (by norm_num)⟩

/-! ### Claim C1: determinism of the generation pipelines -/

theorem convolve_len (a b : Fpcg.FArr) :
    (Fpcg.convolve a b).len = a.len + b.len - 1 := rfl

theorem convolve_val_zero (a b : Fpcg.FArr) (ha : 0 < a.len) (hb : 0 < b.len) :
    (Fpcg.convolve a b).val 0 = a.val 0 * b.val 0 := by
  show (∑ i ∈ Finset.range a.len,
      a.val i * (if i ≤ 0 ∧ 0 - i < b.len then b.val (0 - i) else 0)) = _
  rw [Finset.sum_eq_single 0]
  · simp [hb]
  · intro i _ hne
    have hc : ¬ (i ≤ 0) := by omega
    simp [hc]
  · intro h
    exact absurd (Finset.mem_range.mpr ha) h

theorem linspaceVal_zero (s e : ℝ) (n : ℕ) :
    Fpcg.linspaceVal s e n 0 = s := by
  simp [Fpcg.linspaceVal]

theorem jsRound_h1n0 : jsRound ((0.01 / 1500 : ℝ) * 1000) = 0 := by
  rw [jsRound]; norm_num

theorem jsRound_h2n0 : jsRound ((0.03 / 1540 : ℝ) * 1000) = 0 := by
  rw [jsRound]; norm_num

theorem fpcgH1_val0 : (Fpcg.expo_conv_kernel 0.01 1500 1000 100 1).val 0 = 1 := by
  simp [Fpcg.expo_conv_kernel, jsRound_h1n0, Real.exp_zero]

theorem fpcgH2_val0 :
    (Fpcg.expo_conv_kernel 0.03 1540 1000 300 0.8).val 0 = 0.8 := by
  simp [Fpcg.expo_conv_kernel, jsRound_h2n0, Real.exp_zero]

theorem fpcgH1_len : (Fpcg.expo_conv_kernel 0.01 1500 1000 100 1).len = 51 := by
  show (jsRound ((jsRound ((0.01 / 1500 : ℝ) * 1000) : ℝ) + 5 * (1 / 100) * 1000)
      + 1).toNat = 51
  rw [jsRound_h1n0]
  rw [show (jsRound (((0 : ℤ) : ℝ) + 5 * (1 / 100) * 1000)) = 50 from by
    rw [jsRound]; push_cast; norm_num]
  rfl

theorem fpcgH2_len : (Fpcg.expo_conv_kernel 0.03 1540 1000 300 0.8).len = 18 := by
  show (jsRound ((jsRound ((0.03 / 1540 : ℝ) * 1000) : ℝ) + 5 * (1 / 300) * 1000)
      + 1).toNat = 18
  rw [jsRound_h2n0]
  rw [show (jsRound (((0 : ℤ) : ℝ) + 5 * (1 / 300) * 1000)) = 17 from by
    rw [jsRound]; push_cast; norm_num]
  rfl

/-- The fixed normalisation denominator of the propagation kernel
(`hNorm`, guarded against zero), a stream-independent constant. -/
noncomputable def fpcgDenom : ℝ :=
  let hConv := Fpcg.convolve (Fpcg.expo_conv_kernel 0.01 1500 1000 100 1)
    (Fpcg.expo_conv_kernel 0.03 1540 1000 300 0.8)
  let hNorm := ∑ i ∈ Finset.range hConv.len, hConv.val i
  if hNorm = 0 then 1 else hNorm

theorem fpcgDenom_ne_zero : fpcgDenom ≠ 0 := by
  rw [fpcgDenom]
  split_ifs with h
  · norm_num
  · exact h

theorem ghs08_len (cf amp : ℝ) :
    (Fpcg.generate_heart_sound cf 0.08 1000 amp).len = 80 := by
  show (max 1 ⌊(1000 : ℝ) * 0.08⌋).toNat = 80
  rw [show ⌊(1000 : ℝ) * 0.08⌋ = 80 by norm_num]
  rfl

theorem ghs08_val0 (cf amp : ℝ) :
    (Fpcg.generate_heart_sound cf 0.08 1000 amp).val 0 =
      amp * Fpcg.sinc (2 * cf * (-0.04)) := by
  show amp * Fpcg.sinc (2 * cf *
      Fpcg.linspaceVal (-(0.08 / 2)) (0.08 / 2) ((max 1 ⌊(1000 : ℝ) * 0.08⌋).toNat) 0)
    = _
  rw [linspaceVal_zero]
  norm_num

theorem fpcgConv_len68 :
    (Fpcg.convolve (Fpcg.expo_conv_kernel 0.01 1500 1000 100 1)
      (Fpcg.expo_conv_kernel 0.03 1540 1000 300 0.8)).len = 68 := by
  rw [convolve_len, fpcgH1_len, fpcgH2_len]

theorem fpcgDenom_eq :
    (if (∑ i ∈ Finset.range 68,
        (Fpcg.convolve (Fpcg.expo_conv_kernel 0.01 1500 1000 100 1)
          (Fpcg.expo_conv_kernel 0.03 1540 1000 300 0.8)).val i) = 0 then (1 : ℝ)
      else ∑ i ∈ Finset.range 68,
        (Fpcg.convolve (Fpcg.expo_conv_kernel 0.01 1500 1000 100 1)
          (Fpcg.expo_conv_kernel 0.03 1540 1000 300 0.8)).val i) = fpcgDenom := by
  rw [fpcgDenom]
  rw [fpcgConv_len68]

/-- Evaluation of the main fPCG path at sample 0 with one cycle: the
output length is 928 and sample 0 carries only the fetal S1 `sinc` tone
scaled by the propagation kernel; `G` is the third fetal gaussian (the
`freq_s1` perturbation), all other heart-sound gaussians being zero. -/
theorem simulateFpcg_cycles1_eval (fuel : ℕ) (o : RStream) (G : ℝ)
    (h0 : o 0 = 0)
    (hg1 : gaussianDraw o 1 = (0, 3)) (hg2 : gaussianDraw o 3 = (0, 5))
    (hg3 : gaussianDraw o 5 = (G, 7)) (hg4 : gaussianDraw o 7 = (0, 9))
    (hg5 : gaussianDraw o 9 = (0, 11)) (hg6 : gaussianDraw o 11 = (0, 13))
    (hg7 : gaussianDraw o 13 = (0, 15))
    (hm1 : gaussianDraw o 16 = (0, 18)) (hm2 : gaussianDraw o 18 = (0, 20))
    (hm3 : gaussianDraw o 20 = (0, 22)) (hm4 : gaussianDraw o 22 = (0, 24))
    (hm5 : gaussianDraw o 24 = (0, 26)) (hm6 : gaussianDraw o 26 = (0, 28))
    (hm7 : gaussianDraw o 28 = (0, 30))
    (hgs : gaussList o 928 30 = (List.replicate 928 0, 30 + 2 * 928)) :
    (Fpcg.simulateFpcgDataset fuel (Fpcg.genFhsNormalOpts 1) o).map
      (fun out => (out.y.len, out.y.val 0)) =
    some (928, 0.8 * Fpcg.sinc (2 * (50 + 2 * G) * (-0.04)) * (0.8 / fpcgDenom)) := by
  have huni : ∀ c, uniformList o 1 c = ([o c], c + 1) := fun c => rfl
  have hcyc : (max (1 : ℤ) ⌊(1 : ℝ)⌋).toNat = 1 := by norm_num
  have hnS : (max (1 : ℤ) ⌊(1000 : ℝ) * (60 / 140 + 0.5)⌋).toNat = 928 := by
    norm_num
    rfl
  have hmax08 : max (0.02 : ℝ) 0.08 = 0.08 := by norm_num
  have hssid : max (0.02 : ℝ) ((210 - 0.5 * 140) / 1000) = 0.14 := by norm_num
  have hmssid : max (0.01 : ℝ) ((0.2 * (60000 / 80) - 160) / 1000) = 0.01 := by
    norm_num
  have hfl14 : ⌊(0.14 : ℝ) * 1000⌋ = 140 := by norm_num
  have hfl01 : ⌊(0.01 : ℝ) * 1000⌋ = 10 := by norm_num
  have hfl03 : ⌊(0.3 : ℝ) * 1000⌋ = 300 := by norm_num
  have hrep : (List.replicate 928 (0 : ℝ)).getD 0 0 = 0 := rfl
  simp +decide only [Fpcg.simulateFpcgDataset, Fpcg.genFhsNormalOpts,
    Fpcg.defaultSimOptions, hcyc, huni, h0, List.map_cons, List.map_nil,
    List.sum_cons, List.sum_nil, List.length_cons, List.length_nil,
    List.foldl_cons, List.foldl_nil, mul_zero, add_zero, zero_add, one_mul,
    mul_one, sub_zero, hnS, Fpcg.fetalBeatStep, Fpcg.maternalBeatStep,
    hg1, hg2, hg3, hg4, hg5, hg6, hg7, hm1, hm2, hm3, hm4, hm5, hm6, hm7,
    hmax08, hssid, hmssid, hfl14, hfl01, hfl03, Fpcg.addIntoZ, Fpcg.zerosA,
    Fpcg.FArr.take, ghs08_len, ghs08_val0, hgs, hrep, fpcgConv_len68,
    Nat.cast_zero, Nat.cast_ofNat, Int.toNat_zero,
    Option.map_some', Bool.false_eq_true, if_false, zero_div, zero_mul]
  rw [Option.some.injEq, Prod.mk.injEq]
  constructor
  · norm_num
  · rw [convolve_val_zero]
    simp only []
    simp +decide only [Nat.cast_zero, Int.toNat_zero, ghs08_val0, add_zero,
      if_true, if_false, zero_mul, zero_add]
    rw [convolve_val_zero, fpcgH1_val0, fpcgH2_val0, fpcgDenom_eq]
    · ring
    all_goals simp only [ghs08_len, fpcgH1_len, fpcgH2_len, fpcgConv_len68]
    all_goals norm_num

/-- Ambient-randomness oracle A for the C1 counterexample: the cycle
uniform is 0, every heart-sound gaussian is zero (second uniform `1/4`),
and the additive-noise gaussians are all zero. -/
def oC1A : RStream := fun i =>
  if i = 0 then 0
  else if i ≤ 14 then (if i % 2 = 1 then 1 / 2 else 1 / 4)
  else if i = 15 then 1 / 2
  else if i % 2 = 0 then 1 / 2 else 1 / 4

/-- Oracle B: identical to A except that the second uniform of the third
fetal gaussian (`freq_s1`) is `1/2`, making that gaussian `-sqrt(2 ln 2)`. -/
def oC1B : RStream := fun i => if i = 6 then 1 / 2 else oC1A i

theorem oC1A_tail (j : ℕ) (hj : 30 ≤ j) :
    oC1A j = if j % 2 = 30 % 2 then 1 / 2 else 1 / 4 := by
  show (if j = 0 then (0:ℝ)
    else if j ≤ 14 then (if j % 2 = 1 then 1 / 2 else 1 / 4)
    else if j = 15 then 1 / 2
    else if j % 2 = 0 then 1 / 2 else 1 / 4) = _
  rw [if_neg (by omega), if_neg (by omega), if_neg (by omega)]

theorem oC1B_tail (j : ℕ) (hj : 30 ≤ j) :
    oC1B j = if j % 2 = 30 % 2 then 1 / 2 else 1 / 4 := by
  show (if j = 6 then (1/2 : ℝ) else oC1A j) = _
  rw [if_neg (by omega)]
  exact oC1A_tail j hj

theorem sinc_neg_four : Fpcg.sinc (-4) = 0 := by
  rw [Fpcg.sinc, if_neg (by norm_num : (-4 : ℝ) ≠ 0)]
  rw [show Real.pi * (-4) = ((-4 : ℤ) : ℝ) * Real.pi by push_cast; ring]
  rw [Real.sin_int_mul_pi, zero_div]

theorem sinc_ne_zero_of_mem {x : ℝ} (h1 : -4 < x) (h2 : x < -3) :
    Fpcg.sinc x ≠ 0 := by
  have hx : x ≠ 0 := by intro h; rw [h] at h2; norm_num at h2
  rw [Fpcg.sinc, if_neg hx]
  intro h
  rcases div_eq_zero_iff.mp h with hs | hp
  · obtain ⟨n, hn⟩ := Real.sin_eq_zero_iff.mp hs
    have hxn : (n : ℝ) = x :=
      mul_left_cancel₀ Real.pi_ne_zero
        (by rw [mul_comm Real.pi]; exact hn)
    have hn1 : (-4 : ℤ) < n := by exact_mod_cast hxn ▸ h1
    have hn2 : n < (-3 : ℤ) := by exact_mod_cast hxn ▸ h2
    omega
  · exact mul_ne_zero Real.pi_ne_zero hx hp

theorem FArr_toList_getD0 (a : Fpcg.FArr) (h : 0 < a.len) :
    a.toList.getD 0 0 = a.val 0 := by
  have hl : 0 < a.toList.length := by
    show 0 < ((List.range a.len).map a.val).length
    rw [List.length_map, List.length_range]; exact h
  rw [List.getD_eq_getElem _ _ hl]
  simp only [Fpcg.FArr.toList]
  rw [List.getElem_map, List.getElem_range]

/-- Bridge: the full `genFhsNormal` entry point at `pointCount = 928`
(which hits the copy branch of the resampler) exposes sample 0 of the
simulated waveform. -/
theorem genFhs_val0 (o : RStream) (G : ℝ)
    (h0 : o 0 = 0)
    (hg1 : gaussianDraw o 1 = (0, 3)) (hg2 : gaussianDraw o 3 = (0, 5))
    (hg3 : gaussianDraw o 5 = (G, 7)) (hg4 : gaussianDraw o 7 = (0, 9))
    (hg5 : gaussianDraw o 9 = (0, 11)) (hg6 : gaussianDraw o 11 = (0, 13))
    (hg7 : gaussianDraw o 13 = (0, 15))
    (hm1 : gaussianDraw o 16 = (0, 18)) (hm2 : gaussianDraw o 18 = (0, 20))
    (hm3 : gaussianDraw o 20 = (0, 22)) (hm4 : gaussianDraw o 22 = (0, 24))
    (hm5 : gaussianDraw o 24 = (0, 26)) (hm6 : gaussianDraw o 26 = (0, 28))
    (hm7 : gaussianDraw o 28 = (0, 30))
    (hgs : gaussList o 928 30 = (List.replicate 928 0, 30 + 2 * 928)) :
    (Fpcg.genFhsNormal 0 928 1 o).map (fun l => l.getD 0 0) =
      some (0.8 * Fpcg.sinc (2 * (50 + 2 * G) * (-0.04)) * (0.8 / fpcgDenom)) := by
  obtain ⟨out, hout⟩ := Option.isSome_iff_exists.mp
    (simulateFpcg_disabled_isSome 0 (Fpcg.genFhsNormalOpts 1) o rfl rfl)
  have heval := simulateFpcg_cycles1_eval 0 o G h0 hg1 hg2 hg3 hg4 hg5 hg6 hg7
    hm1 hm2 hm3 hm4 hm5 hm6 hm7 hgs
  rw [hout, Option.map_some', Option.some.injEq, Prod.mk.injEq] at heval
  obtain ⟨hlen, hval⟩ := heval
  rw [Fpcg.genFhsNormal, hout]
  have hlenL : ((out.y.toList.length : ℤ)) = 928 := by
    show ((((List.range out.y.len).map out.y.val).length : ℕ) : ℤ) = 928
    rw [List.length_map, List.length_range, hlen]
    norm_num
  simp only [Fpcg.resampleToLength]
  rw [if_pos hlenL, Option.map_some', Option.some.injEq]
  rw [FArr_toList_getD0 out.y (by rw [hlen]; norm_num)]
  exact hval

/-- C1 counterexample: the fPCG pipeline is NOT deterministic in
`(kind, pointCount, cycles, seed)`.  Its main heart-sound path draws from
`rngFactory(null)`, i.e. `Math.random`: two runs with identical fixed
inputs but different ambient randomness (oracles `oC1A`, `oC1B`, which
differ in a single `Math.random()` value) produce different output
arrays. -/
theorem C1_counterexample :
    Fpcg.genFhsNormal 0 928 1 oC1A ≠ Fpcg.genFhsNormal 0 928 1 oC1B := by
  intro heq
  have hA := genFhs_val0 oC1A 0 (by norm_num [oC1A])
    (gaussianDraw_quarter (by norm_num [oC1A]) (by norm_num [oC1A]))
    (gaussianDraw_quarter (by norm_num [oC1A]) (by norm_num [oC1A]))
    (gaussianDraw_quarter (by norm_num [oC1A]) (by norm_num [oC1A]))
    (gaussianDraw_quarter (by norm_num [oC1A]) (by norm_num [oC1A]))
    (gaussianDraw_quarter (by norm_num [oC1A]) (by norm_num [oC1A]))
    (gaussianDraw_quarter (by norm_num [oC1A]) (by norm_num [oC1A]))
    (gaussianDraw_quarter (by norm_num [oC1A]) (by norm_num [oC1A]))
    (gaussianDraw_quarter (by norm_num [oC1A]) (by norm_num [oC1A]))
    (gaussianDraw_quarter (by norm_num [oC1A]) (by norm_num [oC1A]))
    (gaussianDraw_quarter (by norm_num [oC1A]) (by norm_num [oC1A]))
    (gaussianDraw_quarter (by norm_num [oC1A]) (by norm_num [oC1A]))
    (gaussianDraw_quarter (by norm_num [oC1A]) (by norm_num [oC1A]))
    (gaussianDraw_quarter (by norm_num [oC1A]) (by norm_num [oC1A]))
    (gaussianDraw_quarter (by norm_num [oC1A]) (by norm_num [oC1A]))
    (gaussList_zeroPattern oC1A_tail 928 30 le_rfl rfl)
  have hB := genFhs_val0 oC1B (-Real.sqrt (2 * Real.log 2))
    (by norm_num [oC1B, oC1A])
    (gaussianDraw_quarter (by norm_num [oC1B, oC1A]) (by norm_num [oC1B, oC1A]))
    (gaussianDraw_quarter (by norm_num [oC1B, oC1A]) (by norm_num [oC1B, oC1A]))
    (by
      rw [gaussianDraw_eval (by norm_num [oC1B, oC1A]) (by norm_num [oC1B])]
      rw [show oC1B 5 = 1 / 2 from by norm_num [oC1B, oC1A],
        show oC1B (5 + 1) = 1 / 2 from by norm_num [oC1B]]
      rw [show (1 / 2 : ℝ) = 2⁻¹ from by norm_num, Real.log_inv]
      rw [show 2 * Real.pi * (2⁻¹ : ℝ) = Real.pi from by ring, Real.cos_pi]
      rw [show -2 * -Real.log 2 = 2 * Real.log 2 from by ring, mul_neg_one])
    (gaussianDraw_quarter (by norm_num [oC1B, oC1A]) (by norm_num [oC1B, oC1A]))
    (gaussianDraw_quarter (by norm_num [oC1B, oC1A]) (by norm_num [oC1B, oC1A]))
    (gaussianDraw_quarter (by norm_num [oC1B, oC1A]) (by norm_num [oC1B, oC1A]))
    (gaussianDraw_quarter (by norm_num [oC1B, oC1A]) (by norm_num [oC1B, oC1A]))
    (gaussianDraw_quarter (by norm_num [oC1B, oC1A]) (by norm_num [oC1B, oC1A]))
    (gaussianDraw_quarter (by norm_num [oC1B, oC1A]) (by norm_num [oC1B, oC1A]))
    (gaussianDraw_quarter (by norm_num [oC1B, oC1A]) (by norm_num [oC1B, oC1A]))
    (gaussianDraw_quarter (by norm_num [oC1B, oC1A]) (by norm_num [oC1B, oC1A]))
    (gaussianDraw_quarter (by norm_num [oC1B, oC1A]) (by norm_num [oC1B, oC1A]))
    (gaussianDraw_quarter (by norm_num [oC1B, oC1A]) (by norm_num [oC1B, oC1A]))
    (gaussianDraw_quarter (by norm_num [oC1B, oC1A]) (by norm_num [oC1B, oC1A]))
    (gaussList_zeroPattern oC1B_tail 928 30 le_rfl rfl)
  rw [heq] at hA
  have hv := Option.some.inj (hA.symm.trans hB)
  rw [show (2 * (50 + 2 * (0 : ℝ)) * (-0.04) : ℝ) = -4 from by norm_num,
    sinc_neg_four, mul_zero, zero_mul] at hv
  have hS0 : 0 < Real.sqrt (2 * Real.log 2) :=
    Real.sqrt_pos.mpr (mul_pos two_pos (Real.log_pos one_lt_two))
  have hS2 : Real.sqrt (2 * Real.log 2) < 2 :=
    (Real.sqrt_lt' (by norm_num)).mpr (by nlinarith [Real.log_two_lt_d9])
  have harg1 : (-4 : ℝ) <
      2 * (50 + 2 * (-Real.sqrt (2 * Real.log 2))) * (-0.04) := by nlinarith
  have harg2 :
      2 * (50 + 2 * (-Real.sqrt (2 * Real.log 2))) * (-0.04) < -3 := by
    nlinarith
  exact (mul_ne_zero
    (mul_ne_zero (by norm_num) (sinc_ne_zero_of_mem harg1 harg2))
    (div_ne_zero (by norm_num) fpcgDenom_ne_zero)) hv.symm

/-- C1 (amended): determinism holds for the heart-sound pipeline:
`simulateHeartDataset` seeds its own mulberry32 generator
(`rngFactory(2025)`) and never reads ambient randomness, so two
invocations with the same `(cycles, fs, abnormality, targetLength)`
produce bit-identical resampled output.  The fPCG pipeline is NOT
deterministic (see `C1_counterexample`): `simulateFpcgDataset` draws its
heart-sound gaussians from `rngFactory(null)`, which is `Math.random`. -/
theorem C1_heart_determinism (cycles : ℕ) (fs : ℝ) (abn : Option Pcg.Abnormal)
    (o1 o2 : RStream) (L : ℤ) :
    Pcg.resampleToLength (Pcg.simulateHeartDataset cycles fs abn o1).1
        (Pcg.simulateHeartDataset cycles fs abn o1).2 L =
      Pcg.resampleToLength (Pcg.simulateHeartDataset cycles fs abn o2).1
        (Pcg.simulateHeartDataset cycles fs abn o2).2 L := rfl

/-! ### Claim C2: counterexample on the fPCG path -/

theorem sinc_abs_le_one (x : ℝ) : |Fpcg.sinc x| ≤ 1 := by
  rw [Fpcg.sinc]
  split_ifs with h
  · norm_num
  · rw [abs_div]
    exact div_le_one_of_le₀ Real.abs_sin_le_abs (abs_nonneg _)

theorem abs_mul_sinc_le (c : ℝ) (hc : 0 ≤ c) (x : ℝ) : |c * Fpcg.sinc x| ≤ c := by
  rw [abs_mul, abs_of_nonneg hc]
  calc c * |Fpcg.sinc x| ≤ c * 1 :=
      mul_le_mul_of_nonneg_left (sinc_abs_le_one x) hc
    _ = c := mul_one c

theorem sinc_pos {x : ℝ} (h0 : 0 < x) (h1 : x < 1) : 0 < Fpcg.sinc x := by
  rw [Fpcg.sinc, if_neg (ne_of_gt h0)]
  have hpi := Real.pi_pos
  apply div_pos _ (mul_pos hpi h0)
  apply Real.sin_pos_of_pos_of_lt_pi (mul_pos hpi h0)
  nlinarith

theorem sinc_lower {x : ℝ} (h0 : 0 < x) (h1 : x ≤ 1 / 10) :
    0.97 ≤ Fpcg.sinc x := by
  rw [Fpcg.sinc, if_neg (ne_of_gt h0)]
  have hpi1 : Real.pi ≤ 3.15 := le_of_lt Real.pi_lt_d2
  have hpi0 := Real.pi_pos
  set t := Real.pi * x with ht
  have ht0 : 0 < t := mul_pos hpi0 h0
  have ht1 : t ≤ 0.315 := by nlinarith
  have hs := Real.sin_gt_sub_cube ht0 (by nlinarith : t ≤ 1)
  rw [le_div_iff₀ ht0]
  have ht2 : t ^ 2 ≤ 0.099225 := by nlinarith
  nlinarith [hs, ht0, ht2]

theorem guard_sum_le (bLen aLen k : ℕ) (bv : ℕ → ℝ) (hb : ∀ j, 0 ≤ bv j) :
    (∑ i ∈ Finset.range aLen,
        (if i ≤ k ∧ k - i < bLen then bv (k - i) else 0))
      ≤ ∑ j ∈ Finset.range bLen, bv j := by
  classical
  have himg : ∑ j ∈ ((Finset.range aLen).filter
        fun i => i ≤ k ∧ k - i < bLen).image (fun i => k - i), bv j
      = ∑ i ∈ (Finset.range aLen).filter (fun i => i ≤ k ∧ k - i < bLen),
          bv (k - i) :=
    Finset.sum_image (by
      intro x hx y hy hxy
      simp only [Finset.mem_filter, Finset.mem_range] at hx hy
      omega)
  rw [← Finset.sum_filter, ← himg]
  apply Finset.sum_le_sum_of_subset_of_nonneg
  · intro j hj
    simp only [Finset.mem_image, Finset.mem_filter, Finset.mem_range] at hj
    obtain ⟨i, ⟨_, _, hkb⟩, rfl⟩ := hj
    exact Finset.mem_range.mpr hkb
  · intro j _ _
    exact hb j

theorem convolve_val_bound (a b : Fpcg.FArr) (M : ℝ) (hM : 0 ≤ M)
    (ha : ∀ i, i < a.len → |a.val i| ≤ M)
    (hb : ∀ j, 0 ≤ b.val j)
    (hsum : ∑ j ∈ Finset.range b.len, b.val j ≤ 1) (k : ℕ) :
    |(Fpcg.convolve a b).val k| ≤ M := by
  show |∑ i ∈ Finset.range a.len,
      a.val i * (if i ≤ k ∧ k - i < b.len then b.val (k - i) else 0)| ≤ M
  refine le_trans (Finset.abs_sum_le_sum_abs _ _) ?_
  have h1 : ∀ i ∈ Finset.range a.len,
      |a.val i * (if i ≤ k ∧ k - i < b.len then b.val (k - i) else 0)| ≤
        M * (if i ≤ k ∧ k - i < b.len then b.val (k - i) else 0) := by
    intro i hi
    have hg0 : 0 ≤ (if i ≤ k ∧ k - i < b.len then b.val (k - i) else 0) := by
      split_ifs
      · exact hb _
      · exact le_rfl
    rw [abs_mul, abs_of_nonneg hg0]
    exact mul_le_mul_of_nonneg_right (ha i (Finset.mem_range.mp hi)) hg0
  refine le_trans (Finset.sum_le_sum h1) ?_
  rw [← Finset.mul_sum]
  calc M * (∑ i ∈ Finset.range a.len,
        (if i ≤ k ∧ k - i < b.len then b.val (k - i) else 0))
      ≤ M * ∑ j ∈ Finset.range b.len, b.val j :=
        mul_le_mul_of_nonneg_left (guard_sum_le b.len a.len k b.val hb) hM
    _ ≤ M * 1 := mul_le_mul_of_nonneg_left hsum hM
    _ = M := mul_one M

theorem expo_val_nonneg (r c fs beta A : ℝ) (hA : 0 ≤ A) (i : ℕ) :
    0 ≤ (Fpcg.expo_conv_kernel r c fs beta A).val i := by
  show 0 ≤ (if jsRound (r / c * fs) ≤ ((i : ℕ) : ℤ) then
    A * Real.exp (-((i : ℝ) - (jsRound (r / c * fs) : ℝ)) * (beta / fs)) else 0)
  split_ifs
  · exact mul_nonneg hA (le_of_lt (Real.exp_pos _))
  · exact le_rfl

theorem convolve_val_nonneg (a b : Fpcg.FArr) (ha : ∀ i, 0 ≤ a.val i)
    (hb : ∀ j, 0 ≤ b.val j) (k : ℕ) : 0 ≤ (Fpcg.convolve a b).val k := by
  show 0 ≤ ∑ i ∈ Finset.range a.len,
      a.val i * (if i ≤ k ∧ k - i < b.len then b.val (k - i) else 0)
  apply Finset.sum_nonneg
  intro i _
  apply mul_nonneg (ha i)
  split_ifs
  · exact hb _
  · exact le_rfl

theorem fpcgHConv_nonneg (i : ℕ) :
    0 ≤ (Fpcg.convolve (Fpcg.expo_conv_kernel 0.01 1500 1000 100 1)
      (Fpcg.expo_conv_kernel 0.03 1540 1000 300 0.8)).val i :=
  convolve_val_nonneg _ _ (expo_val_nonneg _ _ _ _ _ (by norm_num))
    (expo_val_nonneg _ _ _ _ _ (by norm_num)) i

theorem fpcgHNorm_pos :
    0 < ∑ i ∈ Finset.range 68,
      (Fpcg.convolve (Fpcg.expo_conv_kernel 0.01 1500 1000 100 1)
        (Fpcg.expo_conv_kernel 0.03 1540 1000 300 0.8)).val i := by
  have h0 : (Fpcg.convolve (Fpcg.expo_conv_kernel 0.01 1500 1000 100 1)
      (Fpcg.expo_conv_kernel 0.03 1540 1000 300 0.8)).val 0 = 0.8 := by
    rw [convolve_val_zero _ _ (by rw [fpcgH1_len]; norm_num)
      (by rw [fpcgH2_len]; norm_num), fpcgH1_val0, fpcgH2_val0]
    norm_num
  refine Finset.sum_pos' (fun i _ => fpcgHConv_nonneg i)
    ⟨0, Finset.mem_range.mpr (by norm_num), by rw [h0]; norm_num⟩

theorem fpcgDenom_val :
    fpcgDenom = ∑ i ∈ Finset.range 68,
      (Fpcg.convolve (Fpcg.expo_conv_kernel 0.01 1500 1000 100 1)
        (Fpcg.expo_conv_kernel 0.03 1540 1000 300 0.8)).val i := by
  show (if (∑ i ∈ Finset.range (Fpcg.convolve (Fpcg.expo_conv_kernel 0.01 1500 1000 100 1)
        (Fpcg.expo_conv_kernel 0.03 1540 1000 300 0.8)).len,
      (Fpcg.convolve (Fpcg.expo_conv_kernel 0.01 1500 1000 100 1)
        (Fpcg.expo_conv_kernel 0.03 1540 1000 300 0.8)).val i) = 0 then (1 : ℝ)
    else _) = _
  rw [fpcgConv_len68, if_neg (ne_of_gt fpcgHNorm_pos)]

theorem fpcgDenom_pos : 0 < fpcgDenom := by
  rw [fpcgDenom_val]; exact fpcgHNorm_pos

theorem ghs08_val (cf amp : ℝ) (i : ℕ) :
    (Fpcg.generate_heart_sound cf 0.08 1000 amp).val i =
      amp * Fpcg.sinc (2 * cf * (-0.04 + (i : ℝ) * (0.08 / 79))) := by
  show amp * Fpcg.sinc (2 * cf *
      Fpcg.linspaceVal (-(0.08 / 2)) (0.08 / 2) ((max 1 ⌊(1000 : ℝ) * 0.08⌋).toNat) i)
    = _
  rw [show (max 1 ⌊(1000 : ℝ) * 0.08⌋).toNat = 80 from by
    rw [show ⌊(1000 : ℝ) * 0.08⌋ = 80 by norm_num]; rfl]
  simp only [Fpcg.linspaceVal]
  norm_num

theorem ghs05_len (cf amp : ℝ) :
    (Fpcg.generate_heart_sound cf 0.05 1000 amp).len = 50 := by
  show (max 1 ⌊(1000 : ℝ) * 0.05⌋).toNat = 50
  rw [show ⌊(1000 : ℝ) * 0.05⌋ = 50 by norm_num]
  rfl

theorem ghs05_val (cf amp : ℝ) (i : ℕ) :
    (Fpcg.generate_heart_sound cf 0.05 1000 amp).val i =
      amp * Fpcg.sinc (2 * cf * (-0.025 + (i : ℝ) * (0.05 / 49))) := by
  show amp * Fpcg.sinc (2 * cf *
      Fpcg.linspaceVal (-(0.05 / 2)) (0.05 / 2) ((max 1 ⌊(1000 : ℝ) * 0.05⌋).toNat) i)
    = _
  rw [show (max 1 ⌊(1000 : ℝ) * 0.05⌋).toNat = 50 from by
    rw [show ⌊(1000 : ℝ) * 0.05⌋ = 50 by norm_num]; rfl]
  simp only [Fpcg.linspaceVal]
  norm_num

/-- Evaluation of the main fPCG path at sample 340 with one cycle: the
sample equals the maternal S1/S2 contribution (`Gm` is the first maternal
gaussian, scaling `amp_ms1`; the other heart-sound gaussians are zero) up
to the fetal propagation term, which the normalised kernel bounds by the
fetal amplitude 0.8. -/
theorem simulateFpcg_cycles1_eval340 (o : RStream) (Gm : ℝ)
    (h0 : o 0 = 0)
    (hg1 : gaussianDraw o 1 = (0, 3)) (hg2 : gaussianDraw o 3 = (0, 5))
    (hg3 : gaussianDraw o 5 = (0, 7)) (hg4 : gaussianDraw o 7 = (0, 9))
    (hg5 : gaussianDraw o 9 = (0, 11)) (hg6 : gaussianDraw o 11 = (0, 13))
    (hg7 : gaussianDraw o 13 = (0, 15))
    (hm1 : gaussianDraw o 16 = (Gm, 18)) (hm2 : gaussianDraw o 18 = (0, 20))
    (hm3 : gaussianDraw o 20 = (0, 22)) (hm4 : gaussianDraw o 22 = (0, 24))
    (hm5 : gaussianDraw o 24 = (0, 26)) (hm6 : gaussianDraw o 26 = (0, 28))
    (hm7 : gaussianDraw o 28 = (0, 30))
    (hgs : gaussList o 928 30 = (List.replicate 928 0, 30 + 2 * 928)) :
    ∀ out, Fpcg.simulateFpcgDataset 0 (Fpcg.genFhsNormalOpts 1) o = some out →
      out.y.len = 928 ∧
      |out.y.val 340 -
        ((0.03 + 0.02 * Gm) * Fpcg.sinc (2 * 15 * (-0.04 + 40 * (0.08 / 79))) +
          0.02 * Fpcg.sinc (2 * 20 * (-0.025 + 30 * (0.05 / 49))))| ≤ 0.8 := by
  intro out hout
  have huni : ∀ c, uniformList o 1 c = ([o c], c + 1) := fun c => rfl
  have hcyc : (max (1 : ℤ) ⌊(1 : ℝ)⌋).toNat = 1 := by norm_num
  have hnS : (max (1 : ℤ) ⌊(1000 : ℝ) * (60 / 140 + 0.5)⌋).toNat = 928 := by
    norm_num
    rfl
  have hmax08 : max (0.02 : ℝ) 0.08 = 0.08 := by norm_num
  have hmax05 : max (0.02 : ℝ) 0.05 = 0.05 := by norm_num
  have hssid : max (0.02 : ℝ) ((210 - 0.5 * 140) / 1000) = 0.14 := by norm_num
  have hmssid : max (0.01 : ℝ) ((0.2 * (60000 / 80) - 160) / 1000) = 0.01 := by
    norm_num
  have hfl14 : ⌊(0.14 : ℝ) * 1000⌋ = 140 := by norm_num
  have hfl01 : ⌊(0.01 : ℝ) * 1000⌋ = 10 := by norm_num
  have hfl03 : ⌊(0.3 : ℝ) * 1000⌋ = 300 := by norm_num
  have hrep340 : (List.replicate 928 (0 : ℝ)).getD 340 0 = 0 := rfl
  have h40 : ((340 : ℤ) - 300).toNat = 40 := rfl
  have h30 : ((340 : ℤ) - (300 + 10)).toNat = 30 := rfl
  simp +decide only [Fpcg.simulateFpcgDataset, Fpcg.genFhsNormalOpts,
    Fpcg.defaultSimOptions, hcyc, huni, h0, List.map_cons, List.map_nil,
    List.sum_cons, List.sum_nil, List.length_cons, List.length_nil,
    List.foldl_cons, List.foldl_nil, mul_zero, add_zero, zero_add, one_mul,
    mul_one, sub_zero, hnS, Fpcg.fetalBeatStep, Fpcg.maternalBeatStep,
    hg1, hg2, hg3, hg4, hg5, hg6, hg7, hm1, hm2, hm3, hm4, hm5, hm6, hm7,
    hmax08, hmax05, hssid, hmssid, hfl14, hfl01, hfl03, Fpcg.addIntoZ,
    Fpcg.zerosA, Fpcg.FArr.take, ghs08_len, ghs05_len, ghs08_val, ghs05_val,
    hgs, hrep340, fpcgConv_len68, Nat.cast_zero, Nat.cast_ofNat,
    Int.toNat_zero, Option.map_some', Bool.false_eq_true, if_false,
    zero_div, zero_mul] at hout
  rw [Option.some.injEq] at hout
  subst hout
  refine ⟨rfl, ?_⟩
  simp only []
  simp +decide only [Nat.cast_ofNat, h40, h30, if_true, if_false, add_zero,
    zero_add, Nat.cast_zero, Int.toNat_zero, hrep340, zero_div, zero_mul]
  have harr : ∀ a m : ℝ, |a + m - m| = |a| := fun a m => by
    rw [show a + m - m = a by ring]
  rw [harr]
  refine convolve_val_bound _ _ 0.8 (by norm_num) ?_ ?_ ?_ 340
  · intro i hi
    simp only []
    split_ifs with hc1 hc2 hc2
    · exfalso
      omega
    · rw [add_zero]
      exact abs_mul_sinc_le 0.8 (by norm_num) _
    · rw [zero_add]
      exact le_trans (abs_mul_sinc_le 0.5 (by norm_num) _) (by norm_num)
    · rw [add_zero, abs_zero]
      norm_num
  · intro j
    simp only [fpcgDenom_eq]
    exact div_nonneg (fpcgHConv_nonneg j) (le_of_lt fpcgDenom_pos)
  · simp only [fpcgDenom_eq]
    rw [← Finset.sum_div, ← fpcgDenom_val, div_self (ne_of_gt fpcgDenom_pos)]

theorem FArr_toList_getD (a : Fpcg.FArr) (i : ℕ) (h : i < a.len) :
    a.toList.getD i 0 = a.val i := by
  have hl : i < a.toList.length := by
    show i < ((List.range a.len).map a.val).length
    rw [List.length_map, List.length_range]; exact h
  rw [List.getD_eq_getElem _ _ hl]
  simp only [Fpcg.FArr.toList]
  rw [List.getElem_map, List.getElem_range]

/-- Oracle for the C2 counterexample: fetal gaussians zero, first maternal
gaussian huge (uniforms `2^-6300` and `1/100`), remaining gaussians and
additive noise zero. -/
def oC2 : RStream := fun i =>
  if i = 0 then 0
  else if i ≤ 14 then (if i % 2 = 1 then 1 / 2 else 1 / 4)
  else if i = 15 then 1 / 2
  else if i = 16 then (2 : ℝ) ^ (-6300 : ℤ)
  else if i = 17 then 1 / 100
  else if i % 2 = 0 then 1 / 2 else 1 / 4

theorem oC2_tail (j : ℕ) (hj : 30 ≤ j) :
    oC2 j = if j % 2 = 30 % 2 then 1 / 2 else 1 / 4 := by
  show (if j = 0 then (0 : ℝ)
    else if j ≤ 14 then (if j % 2 = 1 then 1 / 2 else 1 / 4)
    else if j = 15 then 1 / 2
    else if j = 16 then (2 : ℝ) ^ (-6300 : ℤ)
    else if j = 17 then 1 / 100
    else if j % 2 = 0 then 1 / 2 else 1 / 4) = _
  rw [if_neg (by omega), if_neg (by omega), if_neg (by omega),
    if_neg (by omega), if_neg (by omega)]

theorem oC2_m1 : gaussianDraw oC2 16 =
    (Real.sqrt (12600 * Real.log 2) * Real.cos (Real.pi / 50), 18) := by
  have h16 : oC2 16 = (2 : ℝ) ^ (-6300 : ℤ) := by norm_num [oC2]
  have h17 : oC2 17 = 1 / 100 := by norm_num [oC2]
  rw [gaussianDraw_eval (by rw [h16]; exact zpow_ne_zero _ (by norm_num))
    (by show oC2 17 ≠ 0; rw [h17]; norm_num)]
  rw [show (16 : ℕ) + 1 = 17 from rfl, h16, h17, Real.log_zpow]
  rw [show -2 * ((-6300 : ℤ) * Real.log 2) = 12600 * Real.log 2 by
    push_cast; ring]
  rw [show 2 * Real.pi * (1 / 100 : ℝ) = Real.pi / 50 by ring]

/-- C2 counterexample: the claimed global bound `|output[i]| ≤ 1` fails on
the fPCG path.  The maternal `amp_ms1 = 0.03 + 0.02·gaussian()` uses an
UNCLAMPED gaussian; a legal `Math.random` run (oracle `oC2`) makes that
gaussian ≈ 93, so the maternal S1 swings the waveform above 1, and the
fPCG pipeline applies NO final normalization that could restore the
bound. -/
theorem C2_counterexample :
    ∃ l, Fpcg.genFhsNormal 0 928 1 oC2 = some l ∧ 1 < l.getD 340 0 := by
  obtain ⟨out, hout⟩ := Option.isSome_iff_exists.mp
    (simulateFpcg_disabled_isSome 0 (Fpcg.genFhsNormalOpts 1) oC2 rfl rfl)
  obtain ⟨hlen, hval⟩ := simulateFpcg_cycles1_eval340 oC2
    (Real.sqrt (12600 * Real.log 2) * Real.cos (Real.pi / 50))
    (by norm_num [oC2])
    (gaussianDraw_quarter (by norm_num [oC2]) (by norm_num [oC2]))
    (gaussianDraw_quarter (by norm_num [oC2]) (by norm_num [oC2]))
    (gaussianDraw_quarter (by norm_num [oC2]) (by norm_num [oC2]))
    (gaussianDraw_quarter (by norm_num [oC2]) (by norm_num [oC2]))
    (gaussianDraw_quarter (by norm_num [oC2]) (by norm_num [oC2]))
    (gaussianDraw_quarter (by norm_num [oC2]) (by norm_num [oC2]))
    (gaussianDraw_quarter (by norm_num [oC2]) (by norm_num [oC2]))
    oC2_m1
    (gaussianDraw_quarter (by norm_num [oC2]) (by norm_num [oC2]))
    (gaussianDraw_quarter (by norm_num [oC2]) (by norm_num [oC2]))
    (gaussianDraw_quarter (by norm_num [oC2]) (by norm_num [oC2]))
    (gaussianDraw_quarter (by norm_num [oC2]) (by norm_num [oC2]))
    (gaussianDraw_quarter (by norm_num [oC2]) (by norm_num [oC2]))
    (gaussianDraw_quarter (by norm_num [oC2]) (by norm_num [oC2]))
    (gaussList_zeroPattern oC2_tail 928 30 le_rfl rfl)
    out hout
  refine ⟨out.y.toList, ?_, ?_⟩
  · rw [Fpcg.genFhsNormal, hout]
    have hlenL : ((out.y.toList.length : ℤ)) = 928 := by
      show ((((List.range out.y.len).map out.y.val).length : ℕ) : ℤ) = 928
      rw [List.length_map, List.length_range, hlen]
      norm_num
    simp only [Fpcg.resampleToLength]
    rw [if_pos hlenL]
  · rw [FArr_toList_getD out.y 340 (by rw [hlen]; norm_num)]
    have hlow := (abs_le.mp hval).1
    have hS1 : (0.97 : ℝ) ≤
        Fpcg.sinc (2 * 15 * (-0.04 + 40 * (0.08 / 79))) := by
      rw [show (2 * 15 * (-0.04 + 40 * (0.08 / 79)) : ℝ) = 1.2 / 79 by
        norm_num]
      exact sinc_lower (by norm_num) (by norm_num)
    have hS2 : 0 < Fpcg.sinc (2 * 20 * (-0.025 + 30 * (0.05 / 49))) := by
      rw [show (2 * 20 * (-0.025 + 30 * (0.05 / 49)) : ℝ) = 11 / 49 by
        norm_num]
      exact sinc_pos (by norm_num) (by norm_num)
    have hsqrt : (93.4 : ℝ) ≤ Real.sqrt (12600 * Real.log 2) := by
      rw [show (93.4 : ℝ) = Real.sqrt (93.4 ^ 2) from
        (Real.sqrt_sq (by norm_num)).symm]
      exact Real.sqrt_le_sqrt (by nlinarith [Real.log_two_gt_d9])
    have hcos : (0.998 : ℝ) ≤ Real.cos (Real.pi / 50) := by
      have h := @Real.one_sub_sq_div_two_le_cos (Real.pi / 50)
      have hpi : Real.pi < 3.15 := Real.pi_lt_d2
      have hpi0 := Real.pi_pos
      nlinarith
    have hGm : (92 : ℝ) ≤
        Real.sqrt (12600 * Real.log 2) * Real.cos (Real.pi / 50) := by
      calc (92 : ℝ) ≤ 93.4 * 0.998 := by norm_num
        _ ≤ Real.sqrt (12600 * Real.log 2) * Real.cos (Real.pi / 50) :=
          mul_le_mul hsqrt hcos (by norm_num) (le_trans (by norm_num) hsqrt)
    have hamp : (1.87 : ℝ) ≤
        0.03 + 0.02 * (Real.sqrt (12600 * Real.log 2) * Real.cos (Real.pi / 50)) := by
      nlinarith
    have hprod : (1.87 : ℝ) * 0.97 ≤
        (0.03 + 0.02 * (Real.sqrt (12600 * Real.log 2) * Real.cos (Real.pi / 50))) *
          Fpcg.sinc (2 * 15 * (-0.04 + 40 * (0.08 / 79))) :=
      mul_le_mul hamp hS1 (by norm_num) (le_trans (by norm_num) hamp)
    nlinarith [hS2]

/-- C6 counterexample: the lung section's `addNoiseSNR` (NotFound.tsx) does
NOT satisfy the claimed SNR power relation.  After mixing in the scaled
noise it peak-normalises the sum to `0.95`, capping every output sample at
`0.95` in magnitude; for the input `[100]` at 100 dB the mean-square power
of output-minus-input is therefore at least `99.05^2`, while the claimed
target `meanSq(sig)/10^(snr/10)` is `1e-6` — off by far more than the
relative `1e-3` the pcg.ts implementation achieves, whatever the seeded
noise values are. -/
theorem C6_counterexample :
    1e-3 * (meanSq [(100 : ℝ)] / Real.rpow 10 (100 / 10)) <
      |meanSq (List.zipWith (fun r xi => r - xi)
          (Lung.addNoiseSNR [(100 : ℝ)] 1 100 2025 (0.2, 0.8) (300, 800))
          [(100 : ℝ)]) -
        meanSq [(100 : ℝ)] / Real.rpow 10 (100 / 10)| := by
  have hlen :
      (Lung.addNoiseSNR [(100 : ℝ)] 1 100 2025 (0.2, 0.8) (300, 800)).length
        = 1 := by
    simp only [Lung.addNoiseSNR]
    rw [List.length_map, List.length_map, List.length_range]
    rfl
  obtain ⟨a, ha⟩ := List.length_eq_one.mp hlen
  have hb : |a| ≤ 0.95 :=
    lungAddNoise_bounded [(100 : ℝ)] 1 100 2025 (0.2, 0.8) (300, 800) a
      (by rw [ha]; exact List.mem_singleton_self a)
  rw [ha]
  rw [show List.zipWith (fun r xi => r - xi) [a] [(100 : ℝ)] = [a - 100]
    from rfl]
  have hms : ∀ x : ℝ, meanSq [x] = x ^ 2 := by
    intro x
    rw [meanSq]
    simp
  rw [hms, hms]
  rw [show Real.rpow 10 (100 / 10 : ℝ) = 10000000000 from by
    rw [show (100 / 10 : ℝ) = ((10 : ℕ) : ℝ) by norm_num]
    rw [show Real.rpow (10 : ℝ) (((10 : ℕ) : ℝ)) = (10 : ℝ) ^ (((10 : ℕ) : ℝ))
      from rfl]
    rw [Real.rpow_natCast]
    norm_num]
  have hT : ((100 : ℝ) ^ 2 / 10000000000) = 1e-6 := by norm_num
  rw [hT]
  have h1 : (99 : ℝ) ≤ 100 - a := by
    have h := abs_le.mp hb
    linarith [h.2]
  have h2 : (9801 : ℝ) ≤ (a - 100) ^ 2 := by nlinarith
  rw [abs_of_nonneg (by nlinarith : (0 : ℝ) ≤ (a - 100) ^ 2 - 1e-6)]
  nlinarith
